import Mathlib

/-!
Verification of the hierarchical retrieval core (BM25 search, semantic cache,
cross-encoder reranker, context settings, vector-store exact-code lookup, and
the nine-stage retrieval pipeline) of the ThuTucHanhChinh repository.

The Python source is embedded shallowly:

* Python floats are modelled as exact rationals.  `Frac` is an executable
  fraction type (numerator, positive denominator); every arithmetic operation
  of the source maps to the corresponding exact operation on `Frac`.
* Transcendental functions (`math.log` in the BM25 IDF computation) and
  external services (the Ollama embedder, the Qdrant nearest-neighbour query,
  the LLM query enhancer, the cross-encoder scoring call) are modelled as
  explicit function parameters; all theorems hold for every choice of these
  parameters.
* Python exceptions are modelled with `Except String`; `Option` models
  `dict.get` / optional values.
* Python `list.sort` / `sorted` (stable) is modelled by the stable insertion
  sort `pySort`; Python `dict` (insertion ordered, value overwrite) is
  modelled by association lists with `pyUpsert`.
-/

/-! ## Exact fraction arithmetic (model of Python float arithmetic) -/

/-- Exact fraction: an integer numerator over a positive integer denominator.
Fractions are not normalised; ordering and value are given by cross
multiplication. -/
structure Frac where
  num : Int
  den : Int
  dpos : 0 < den

instance : DecidableEq Frac := fun x y =>
  if h : x.num = y.num ∧ x.den = y.den then
    isTrue (by cases x; cases y; cases h.1; cases h.2; rfl)
  else
    isFalse (fun he => h (by cases he; exact ⟨rfl, rfl⟩))

def Frac.ofInt (n : Int) : Frac := ⟨n, 1, one_pos⟩

def Frac.ofNat (n : Nat) : Frac := ⟨(n : Int), 1, one_pos⟩

instance : OfNat Frac n := ⟨Frac.ofNat n⟩

def Frac.add (x y : Frac) : Frac :=
  ⟨x.num * y.den + y.num * x.den, x.den * y.den, mul_pos x.dpos y.dpos⟩

def Frac.sub (x y : Frac) : Frac :=
  ⟨x.num * y.den - y.num * x.den, x.den * y.den, mul_pos x.dpos y.dpos⟩

def Frac.mul (x y : Frac) : Frac :=
  ⟨x.num * y.num, x.den * y.den, mul_pos x.dpos y.dpos⟩

/-- Division.  Division by a zero fraction is given the junk value `0`; every
call site in the embedding guards it with the `ZeroDivisionError` of the
source, so the junk value is unreachable there. -/
def Frac.div (x y : Frac) : Frac :=
  if h : 0 < y.num then ⟨x.num * y.den, x.den * y.num, mul_pos x.dpos h⟩
  else if h2 : y.num < 0 then
    ⟨-(x.num * y.den), x.den * -y.num, mul_pos x.dpos (by omega)⟩
  else ⟨0, 1, one_pos⟩

/-- Boolean `≤` by cross multiplication (denominators are positive). -/
def Frac.ble (x y : Frac) : Bool := decide (x.num * y.den ≤ y.num * x.den)

/-- Boolean `<` by cross multiplication (denominators are positive). -/
def Frac.blt (x y : Frac) : Bool := decide (x.num * y.den < y.num * x.den)

/-- Rational value of a fraction (for specification-level reasoning). -/
def Frac.val (x : Frac) : ℚ := (x.num : ℚ) / (x.den : ℚ)

theorem Frac.ble_trans {a b c : Frac} (h1 : a.ble b = true) (h2 : b.ble c = true) :
    a.ble c = true := by
  simp only [Frac.ble, decide_eq_true_eq] at *
  nlinarith [a.dpos, b.dpos, c.dpos,
    mul_le_mul_of_nonneg_right h1 (le_of_lt c.dpos),
    mul_le_mul_of_nonneg_right h2 (le_of_lt a.dpos)]

theorem Frac.ble_total (a b : Frac) : a.ble b = true ∨ b.ble a = true := by
  simp only [Frac.ble, decide_eq_true_eq]
  exact Int.le_total (a.num * b.den) (b.num * a.den)

theorem Frac.blt_iff_not_ble {a b : Frac} : a.blt b = true ↔ ¬ b.ble a = true := by
  simp only [Frac.blt, Frac.ble, decide_eq_true_eq]
  omega

theorem Frac.val_add (x y : Frac) : (x.add y).val = x.val + y.val := by
  have hx : (x.den : ℚ) ≠ 0 := by exact_mod_cast ne_of_gt x.dpos
  have hy : (y.den : ℚ) ≠ 0 := by exact_mod_cast ne_of_gt y.dpos
  simp only [Frac.add, Frac.val]
  push_cast
  field_simp

theorem Frac.val_mul (x y : Frac) : (x.mul y).val = x.val * y.val := by
  simp only [Frac.mul, Frac.val]
  push_cast
  field_simp

theorem Frac.val_div (x y : Frac) (hy : y.num ≠ 0) : (x.div y).val = x.val / y.val := by
  have hx : (x.den : ℚ) ≠ 0 := by exact_mod_cast ne_of_gt x.dpos
  have hyd : (y.den : ℚ) ≠ 0 := by exact_mod_cast ne_of_gt y.dpos
  rcases lt_trichotomy 0 y.num with h | h | h
  · have hn : (y.num : ℚ) ≠ 0 := by exact_mod_cast hy
    simp only [Frac.div, dif_pos h, Frac.val]
    push_cast
    field_simp
  · exact absurd h.symm hy
  · have hn : (y.num : ℚ) ≠ 0 := by exact_mod_cast hy
    simp only [Frac.div, dif_neg (by omega : ¬ 0 < y.num), dif_pos h, Frac.val]
    push_cast
    field_simp

theorem Frac.val_ofNat (n : Nat) : (Frac.ofNat n).val = (n : ℚ) := by
  simp [Frac.ofNat, Frac.val]

/-! ## Stable insertion sort (model of Python `list.sort` / `sorted`) -/

/-- Insert `x` into `l` after every element `y` with `le y x`; with a total,
transitive `le` this is the insertion step of a stable insertion sort, which
matches the stable sort of Python. -/
def pyInsert (le : α → α → Bool) (x : α) : List α → List α
  | [] => [x]
  | y :: ys => if le y x then y :: pyInsert le x ys else x :: y :: ys

/-- Stable sort by the boolean relation `le` (Python `list.sort`). -/
def pySort (le : α → α → Bool) (l : List α) : List α :=
  l.foldl (fun acc x => pyInsert le x acc) []

theorem pyInsert_perm (le : α → α → Bool) (x : α) (l : List α) :
    List.Perm (pyInsert le x l) (x :: l) := by
  induction l with
  | nil => simp [pyInsert]
  | cons y ys ih =>
    simp only [pyInsert]
    by_cases h : le y x
    · simp only [if_pos h]
      exact (List.Perm.cons y ih).trans (List.Perm.swap x y ys)
    · simp [if_neg h]

theorem pySort_foldl_perm (le : α → α → Bool) (l acc : List α) :
    List.Perm (l.foldl (fun a x => pyInsert le x a) acc) (acc ++ l) := by
  induction l generalizing acc with
  | nil => simp
  | cons x xs ih =>
    simp only [List.foldl_cons]
    refine (ih (pyInsert le x acc)).trans ?_
    have h1 : List.Perm (pyInsert le x acc ++ xs) ((x :: acc) ++ xs) :=
      (pyInsert_perm le x acc).append_right xs
    exact h1.trans List.perm_middle.symm

theorem pySort_perm (le : α → α → Bool) (l : List α) :
    List.Perm (pySort le l) l := by
  simpa using pySort_foldl_perm le l []

theorem pyInsert_pairwise (le : α → α → Bool)
    (htrans : ∀ a b c, le a b = true → le b c = true → le a c = true)
    (htotal : ∀ a b, le a b = true ∨ le b a = true)
    (x : α) (l : List α) (hl : List.Pairwise (fun a b => le a b = true) l) :
    List.Pairwise (fun a b => le a b = true) (pyInsert le x l) := by
  induction l with
  | nil => simp [pyInsert]
  | cons y ys ih =>
    rcases hl with _ | ⟨hy, hys⟩
    simp only [pyInsert]
    by_cases h : le y x
    · simp only [if_pos h]
      refine List.Pairwise.cons ?_ (ih hys)
      intro z hz
      have hz' : z = x ∨ z ∈ ys := by
        have := (pyInsert_perm le x ys).mem_iff.mp hz
        simpa using this
      rcases hz' with rfl | hz'
      · exact h
      · exact hy z hz'
    · simp only [if_neg h]
      have hxy : le x y = true := by
        rcases htotal x y with h' | h'
        · exact h'
        · exact absurd h' h
      refine List.Pairwise.cons ?_ (List.Pairwise.cons hy hys)
      intro z hz
      rcases List.mem_cons.mp hz with rfl | hz'
      · exact hxy
      · exact htrans x y z hxy (hy z hz')

theorem pySort_foldl_pairwise (le : α → α → Bool)
    (htrans : ∀ a b c, le a b = true → le b c = true → le a c = true)
    (htotal : ∀ a b, le a b = true ∨ le b a = true)
    (l acc : List α) (hacc : List.Pairwise (fun a b => le a b = true) acc) :
    List.Pairwise (fun a b => le a b = true)
      (l.foldl (fun a x => pyInsert le x a) acc) := by
  induction l generalizing acc with
  | nil => simpa
  | cons x xs ih =>
    simp only [List.foldl_cons]
    exact ih _ (pyInsert_pairwise le htrans htotal x acc hacc)

theorem pySort_pairwise (le : α → α → Bool)
    (htrans : ∀ a b c, le a b = true → le b c = true → le a c = true)
    (htotal : ∀ a b, le a b = true ∨ le b a = true)
    (l : List α) :
    List.Pairwise (fun a b => le a b = true) (pySort le l) :=
  pySort_foldl_pairwise le htrans htotal l [] (by simp)

theorem pySort_mem {le : α → α → Bool} {l : List α} {x : α} :
    x ∈ pySort le l ↔ x ∈ l :=
  (pySort_perm le l).mem_iff

theorem pySort_length (le : α → α → Bool) (l : List α) :
    (pySort le l).length = l.length :=
  (pySort_perm le l).length_eq

/-! ## Ordered association lists (model of Python `dict`) -/

/-- Python `d[k] = v`: overwrite in place when the key exists, else append. -/
def pyUpsert (m : List (String × β)) (k : String) (v : β) : List (String × β) :=
  match m with
  | [] => [(k, v)]
  | (k', v') :: rest =>
    if k' = k then (k', v) :: rest else (k', v') :: pyUpsert rest k v

/-- Python `d.get(k)` / `k in d` lookup (first, and with `pyUpsert` only,
binding of the key). -/
def pyGet (m : List (String × β)) (k : String) : Option β :=
  match m with
  | [] => none
  | (k', v) :: rest => if k' = k then some v else pyGet rest k

/-- Python `del d[k]`. -/
def pyDel (m : List (String × β)) (k : String) : List (String × β) :=
  match m with
  | [] => []
  | (k', v) :: rest => if k' = k then rest else (k', v) :: pyDel rest k

/-! ## Character and string primitives

Python string operations on Unicode text: lowercasing and the character
classes of `\w` / `\s` are modelled exactly on ASCII; non-ASCII characters
(the Vietnamese letters of the corpus) are treated as word characters and
left unchanged by lowercasing. -/

def charListLe : List Char → List Char → Bool
  | [], _ => true
  | _ :: _, [] => false
  | a :: as, b :: bs =>
    if a.toNat < b.toNat then true
    else if a.toNat = b.toNat then charListLe as bs
    else false

/-- Lexicographic `≤` on strings by code point (Python `str` comparison). -/
def strLe (a b : String) : Bool := charListLe a.data b.data

theorem charListLe_cons_iff {x y : Char} {xs ys : List Char} :
    charListLe (x :: xs) (y :: ys) = true ↔
      x.toNat < y.toNat ∨ (x.toNat = y.toNat ∧ charListLe xs ys = true) := by
  simp only [charListLe]
  split_ifs with hlt heq
  · simp [hlt]
  · simp [hlt, heq]
  · simp [hlt, heq]

theorem charListLe_trans :
    ∀ a b c : List Char, charListLe a b = true → charListLe b c = true →
      charListLe a c = true := by
  intro a
  induction a with
  | nil => intro b c _ _; rfl
  | cons x xs ih =>
    intro b c h1 h2
    cases b with
    | nil => simp [charListLe] at h1
    | cons y ys =>
      cases c with
      | nil => simp [charListLe] at h2
      | cons z zs =>
        rcases charListLe_cons_iff.mp h1 with hxy | ⟨hxy, hr1⟩ <;>
          rcases charListLe_cons_iff.mp h2 with hyz | ⟨hyz, hr2⟩
        · exact charListLe_cons_iff.mpr (Or.inl (by omega))
        · exact charListLe_cons_iff.mpr (Or.inl (by omega))
        · exact charListLe_cons_iff.mpr (Or.inl (by omega))
        · exact charListLe_cons_iff.mpr (Or.inr ⟨by omega, ih ys zs hr1 hr2⟩)

theorem charListLe_total :
    ∀ a b : List Char, charListLe a b = true ∨ charListLe b a = true := by
  intro a
  induction a with
  | nil => intro b; left; rfl
  | cons x xs ih =>
    intro b
    cases b with
    | nil => right; rfl
    | cons y ys =>
      by_cases hxy : x.toNat < y.toNat
      · exact Or.inl (charListLe_cons_iff.mpr (Or.inl hxy))
      · by_cases hyx : y.toNat < x.toNat
        · exact Or.inr (charListLe_cons_iff.mpr (Or.inl hyx))
        · rcases ih ys with h | h
          · exact Or.inl (charListLe_cons_iff.mpr (Or.inr ⟨by omega, h⟩))
          · exact Or.inr (charListLe_cons_iff.mpr (Or.inr ⟨by omega, h⟩))

theorem strLe_trans {a b c : String} (h1 : strLe a b = true) (h2 : strLe b c = true) :
    strLe a c = true :=
  charListLe_trans a.data b.data c.data h1 h2

theorem strLe_total (a b : String) : strLe a b = true ∨ strLe b a = true :=
  charListLe_total a.data b.data

def charListIsPre : List Char → List Char → Bool
  | [], _ => true
  | _ :: _, [] => false
  | a :: as, b :: bs => a == b && charListIsPre as bs

def charListHasSub (needle : List Char) : List Char → Bool
  | [] => charListIsPre needle []
  | c :: cs => charListIsPre needle (c :: cs) || charListHasSub needle cs

/-- Python `needle in hay` on strings (substring containment). -/
def strHasSub (hay needle : String) : Bool := charListHasSub needle.data hay.data

/-- Python `str.lower` restricted to ASCII. -/
def pyToLower (c : Char) : Char :=
  if 65 ≤ c.toNat ∧ c.toNat ≤ 90 then Char.ofNat (c.toNat + 32) else c

def pyLower (s : String) : String := ⟨s.data.map pyToLower⟩

/-- Python regex class `\w` (word character): ASCII alphanumerics and `_`;
non-ASCII characters (the Vietnamese letters) are word characters. -/
def isPyWordChar (c : Char) : Bool := c.isAlphanum || c == '_' || 128 ≤ c.toNat

/-- Python regex class `\s` / `str.split()` whitespace, ASCII part. -/
def isPySpace (c : Char) : Bool :=
  c == ' ' || c == '\t' || c == '\n' || c == '\r' || c.toNat == 11 || c.toNat == 12

def splitWsAux : List Char → List Char → List (List Char)
  | [], acc => if acc.isEmpty then [] else [acc.reverse]
  | c :: cs, acc =>
    if isPySpace c then
      if acc.isEmpty then splitWsAux cs [] else acc.reverse :: splitWsAux cs []
    else splitWsAux cs (c :: acc)

/-- Python `str.split()` with no argument: split on whitespace runs, dropping
empty fields. -/
def pySplitWs (s : String) : List String :=
  (splitWsAux s.data []).map (fun cs => ⟨cs⟩)

/-! ## Data model: chunks and scored result records

A raw chunk (the dictionaries of `all_chunks.json`, as indexed by BM25 and
upserted to Qdrant) is `Chunk`.  The result dictionaries that flow through the
pipeline accumulate optional score keys; they are `ScoredChunk`, with one
`Option` field per dynamically added key.  Raw chunks carry the key
`thu_tuc_id`; the formatted results of the vector store rename it to
`mã_thủ_tục`, so a `ScoredChunk` has either of the two keys. -/

structure Chunk where
  chunk_id : String
  thu_tuc_id : String
  chunk_type : String
  chunk_tier : String
  parent_chunk_id : Option String
  content : String
  metadata : List (String × String)
  deriving DecidableEq

/-- Python `chunk.get(key)` on a raw chunk dictionary, over the string-valued
fields of the repository's chunk schema. -/
def Chunk.get (c : Chunk) (key : String) : Option String :=
  if key = "chunk_id" then some c.chunk_id
  else if key = "thu_tuc_id" then some c.thu_tuc_id
  else if key = "chunk_type" then some c.chunk_type
  else if key = "chunk_tier" then some c.chunk_tier
  else if key = "parent_chunk_id" then c.parent_chunk_id
  else if key = "content" then some c.content
  else none

/-- A filter value: the repository passes either a single string or a list of
strings (the `timeline` intent maps to two chunk types). -/
inductive FilterVal where
  | str (s : String)
  | strs (l : List String)
  deriving DecidableEq

structure ScoredChunk where
  chunk_id : String
  ma_thu_tuc : Option String
  thu_tuc_id : Option String
  chunk_type : String
  chunk_tier : String
  parent_chunk_id : Option String
  content : String
  metadata : List (String × String)
  score : Option Frac
  bm25_score : Option Frac
  rrf_score : Option Frac
  retrieval_count : Option Nat
  source_semantic : Option Nat
  source_bm25 : Option Nat
  cross_tier_match : Option Bool
  final_score : Option Frac
  original_rank : Option Nat
  deriving DecidableEq

/-- BM25 result row: `chunk.copy()` with `score` and `bm25_score` set. -/
def Chunk.toScored (c : Chunk) (s : Frac) : ScoredChunk :=
  ⟨c.chunk_id, none, some c.thu_tuc_id, c.chunk_type, c.chunk_tier,
   c.parent_chunk_id, c.content, c.metadata,
   some s, some s, none, none, none, none, none, none, none⟩

/-! ## BM25 search (src/retrieval/bm25_search.py) -/

def VIETNAMESE_STOPWORDS : List String :=
  ["và", "của", "có", "là", "được", "trong", "các", "để", "cho",
   "với", "theo", "từ", "về", "này", "đó", "khi", "như", "không",
   "tại", "hoặc", "những", "đã", "vào", "nếu", "hay", "do", "sẽ",
   "bởi", "bằng", "đến", "trên", "dưới", "sau", "trước", "ngoài",
   "giữa", "thì", "nhưng", "mà", "vì", "nên", "đây", "đấy", "cũng",
   "thêm", "nhiều", "ít"]

/-- `SimpleBM25.tokenize`: lowercase, replace every character that is neither
a word character nor whitespace by a space, split on whitespace, keep tokens
longer than one character, optionally drop stopwords. -/
def tokenize (text : String) (remove_stopwords : Bool := true) : List String :=
  if text = "" then []
  else
    let cleaned :=
      (pyLower text).data.map (fun c => if isPyWordChar c || isPySpace c then c else ' ')
    let tokens :=
      ((splitWsAux cleaned []).map (fun cs => (⟨cs⟩ : String))).filter
        (fun w => 1 < w.length)
    if remove_stopwords then
      tokens.filter (fun w => !(VIETNAMESE_STOPWORDS.contains w))
    else tokens

structure InvertedIndexEntry where
  doc_id : Nat
  term_freq : Nat
  deriving DecidableEq

/-- Python `collections.Counter` over a token list, insertion-ordered. -/
def pyCounter (tokens : List String) : List (String × Nat) :=
  tokens.foldl (fun acc t => pyUpsert acc t ((pyGet acc t).getD 0 + 1)) []

structure SimpleBM25 where
  k1 : Frac
  b : Frac
  chunks : List Chunk
  inverted_index : List (String × List InvertedIndexEntry)
  doc_lengths : List Nat
  avg_doc_length : Frac
  num_docs : Nat
  idf_cache : List (String × Frac)
  is_built : Bool
  deriving DecidableEq

/-- `SimpleBM25.__init__(chunks, k1, b)`. -/
def SimpleBM25.init (chunks : List Chunk) (k1 b : Frac) : SimpleBM25 :=
  ⟨k1, b, chunks, [], [], Frac.ofNat 0, 0, [], false⟩

def fracHalf : Frac := ⟨1, 2, by norm_num⟩

/-- `SimpleBM25.build_index`.  `log` is the natural logarithm of Python's
`math.log`, kept as a parameter (transcendental); all theorems hold for every
`log`.  Raises `ValueError` on an empty chunk list.  Note that `idf_cache` is
not cleared by the source before being refilled. -/
def SimpleBM25.build_index (log : Frac → Frac) (st : SimpleBM25) :
    Except String SimpleBM25 :=
  if st.chunks = [] then
    .error "ValueError: No chunks provided. Pass chunks to __init__ or set self.chunks"
  else
    let num_docs := st.chunks.length
    let r := st.chunks.enum.foldl
      (fun (acc : List Nat × List (String × List InvertedIndexEntry)) p =>
        let content := (Chunk.get p.2 "content").getD ""
        let tokens := tokenize content true
        let term_freqs := pyCounter tokens
        let inv := term_freqs.foldl
          (fun idx tf =>
            pyUpsert idx tf.1 ((pyGet idx tf.1).getD [] ++ [⟨p.1, tf.2⟩]))
          acc.2
        (acc.1 ++ [tokens.length], inv))
      ([], [])
    let doc_lengths := r.1
    let inverted_index := r.2
    let avg_doc_length :=
      if num_docs > 0 then
        (Frac.ofNat (doc_lengths.foldl (· + ·) 0)).div (Frac.ofNat num_docs)
      else Frac.ofNat 0
    let idf_cache := inverted_index.foldl
      (fun m ti =>
        let df := ti.2.length
        let idf := log
          (((((Frac.ofNat num_docs).sub (Frac.ofNat df)).add fracHalf).div
              ((Frac.ofNat df).add fracHalf)).add (Frac.ofNat 1))
        pyUpsert m ti.1 idf)
      st.idf_cache
    .ok { st with
      num_docs := num_docs
      doc_lengths := doc_lengths
      inverted_index := inverted_index
      avg_doc_length := avg_doc_length
      idf_cache := idf_cache
      is_built := true }

/-- Filter predicate of `SimpleBM25.search`: every filter key must compare
equal (`chunk.get(key) != value` drops the chunk) against the chunk's fields;
a list-valued filter never equals a string field. -/
def chunkMatchesFilters (c : Chunk) (filters : List (String × FilterVal)) : Bool :=
  filters.all (fun kv =>
    match kv.2 with
    | .str s => Chunk.get c kv.1 == some s
    | .strs _ => false)

/-- Filter predicate asserted by the specification: the filter value matches
the chunk's fields or its metadata map. -/
def chunkMatchesFiltersSpec (c : Chunk) (filters : List (String × FilterVal)) : Bool :=
  filters.all (fun kv =>
    match kv.2 with
    | .str s => Chunk.get c kv.1 == some s || pyGet c.metadata kv.1 == some s
    | .strs _ => false)

/-- One iteration of the scoring loop of `SimpleBM25.search` for a query
term: add the BM25 contribution of the term to every document of its postings
list.  Out-of-range document ids raise `IndexError`; a zero denominator (or a
zero average document length) raises `ZeroDivisionError`, as in Python float
division. -/
def SimpleBM25.score_term (st : SimpleBM25) (scores : List Frac) (term : String) :
    Except String (List Frac) :=
  match pyGet st.inverted_index term with
  | none => .ok scores
  | some postings =>
    match pyGet st.idf_cache term with
    | none => .error "KeyError: idf_cache"
    | some idf =>
      postings.foldlM
        (fun sc e =>
          match st.doc_lengths.get? e.doc_id, sc.get? e.doc_id with
          | some doc_len, some cur =>
            if st.avg_doc_length.num = 0 then .error "ZeroDivisionError"
            else
              let tf := Frac.ofNat e.term_freq
              let numerator := tf.mul (st.k1.add (Frac.ofNat 1))
              let denominator := tf.add
                (st.k1.mul (((Frac.ofNat 1).sub st.b).add
                  ((st.b.mul (Frac.ofNat doc_len)).div st.avg_doc_length)))
              if denominator.num = 0 then .error "ZeroDivisionError"
              else .ok (sc.set e.doc_id (cur.add (idf.mul (numerator.div denominator))))
          | _, _ => .error "IndexError: list index out of range")
        scores

/-- Filter loop of `SimpleBM25.search`: keep scored pairs whose chunk matches
every filter; accessing a chunk of an out-of-range document id raises. -/
def filterPairs (chunks : List Chunk) (filters : List (String × FilterVal)) :
    List (Nat × Frac) → Except String (List (Nat × Frac))
  | [] => .ok []
  | p :: rest =>
    match chunks.get? p.1 with
    | none => .error "IndexError: list index out of range"
    | some c =>
      (filterPairs chunks filters rest).map
        (fun r => if chunkMatchesFilters c filters then p :: r else r)

/-- Result building loop of `SimpleBM25.search`: copy each chunk and attach
its score; accessing an out-of-range document id raises. -/
def buildResults (chunks : List Chunk) :
    List (Nat × Frac) → Except String (List ScoredChunk)
  | [] => .ok []
  | p :: rest =>
    match chunks.get? p.1 with
    | none => .error "IndexError: list index out of range"
    | some c => (buildResults chunks rest).map (fun r => Chunk.toScored c p.2 :: r)

/-- `SimpleBM25.search`: raise unless built; tokenize the query; score all
documents; keep strictly positive scores; apply filters when supplied; sort
by descending score (stable); return the first `top_k` chunk copies with the
score attached. -/
def SimpleBM25.search (st : SimpleBM25) (query : String) (top_k : Nat := 20)
    (filters : List (String × FilterVal) := []) : Except String (List ScoredChunk) :=
  if st.is_built = false then
    .error "RuntimeError: Index not built. Call build_index() first."
  else
    let query_terms := tokenize query true
    if query_terms = [] then .ok []
    else do
      let scores ← query_terms.foldlM (SimpleBM25.score_term st)
        (List.replicate st.num_docs (Frac.ofNat 0))
      let doc_score_pairs := scores.enum.filter (fun p => Frac.blt (Frac.ofNat 0) p.2)
      let kept ← if filters = [] then pure doc_score_pairs
        else filterPairs st.chunks filters doc_score_pairs
      let sorted := pySort (fun p q => Frac.ble q.2 p.2) kept
      buildResults st.chunks (sorted.take top_k)

/-- The record pickled by `SimpleBM25.save_index`. -/
structure BM25SavedData where
  inverted_index : List (String × List InvertedIndexEntry)
  doc_lengths : List Nat
  avg_doc_length : Frac
  num_docs : Nat
  idf_cache : List (String × Frac)
  k1 : Frac
  b : Frac
  deriving DecidableEq

def SimpleBM25.save_index (st : SimpleBM25) : BM25SavedData :=
  ⟨st.inverted_index, st.doc_lengths, st.avg_doc_length, st.num_docs,
   st.idf_cache, st.k1, st.b⟩

/-- `SimpleBM25.load_index`: restore every pickled field and set `is_built`;
the chunk list of the instance is left untouched. -/
def SimpleBM25.load_index (st : SimpleBM25) (d : BM25SavedData) : SimpleBM25 :=
  { st with
    inverted_index := d.inverted_index
    doc_lengths := d.doc_lengths
    avg_doc_length := d.avg_doc_length
    num_docs := d.num_docs
    idf_cache := d.idf_cache
    k1 := d.k1
    b := d.b
    is_built := true }

/-! ## Semantic cache (src/retrieval/semantic_cache.py)

Time is passed explicitly (`now` stands for `time.time()` at the operation).
`_cosine_similarity` computes a floating-point square root, so the cache is
parametric in the similarity function `sim`; every theorem holds for every
`sim`.  The cache is generic in the type `α` of cached results. -/

structure CacheEntry (α : Type) where
  query : String
  query_embedding : List Frac
  result : α
  timestamp : Frac
  access_count : Nat
  last_accessed : Frac

structure CacheStats where
  hits : Nat
  misses : Nat
  evictions : Nat
  expired : Nat
  total_queries : Nat
  deriving DecidableEq

structure SemanticCache (α : Type) where
  max_size : Nat
  ttl_seconds : Frac
  similarity_threshold : Frac
  sim : List Frac → List Frac → Frac
  entries : List (String × CacheEntry α)
  stats : CacheStats

/-- `SemanticCache.__init__(max_size, ttl_hours, similarity_threshold)`. -/
def SemanticCache.init (α : Type) (max_size : Nat) (ttl_hours : Frac)
    (similarity_threshold : Frac) (sim : List Frac → List Frac → Frac) :
    SemanticCache α :=
  ⟨max_size, ttl_hours.mul (Frac.ofNat 3600), similarity_threshold, sim, [],
   ⟨0, 0, 0, 0, 0⟩⟩

/-- `SemanticCache._is_expired`: `now - timestamp > ttl_seconds`. -/
def SemanticCache.isExpired (c : SemanticCache α) (now : Frac) (e : CacheEntry α) :
    Bool :=
  Frac.blt c.ttl_seconds (now.sub e.timestamp)

/-- `SemanticCache._update_access`: bump the access count, set the
last-access time, and move the entry to the tail (most recent). -/
def SemanticCache.updateAccess (c : SemanticCache α) (query : String) (now : Frac) :
    SemanticCache α :=
  match pyGet c.entries query with
  | none => c
  | some e =>
    let e2 := { e with access_count := e.access_count + 1, last_accessed := now }
    { c with entries := pyDel c.entries query ++ [(query, e2)] }

/-- `SemanticCache._remove_entry`. -/
def SemanticCache.removeEntry (c : SemanticCache α) (query : String) :
    SemanticCache α :=
  { c with entries := pyDel c.entries query }

/-- `SemanticCache._evict_lru`: drop the head entry (least recently used)
when the cache is non-empty. -/
def SemanticCache.evictLru (c : SemanticCache α) : SemanticCache α :=
  match c.entries with
  | [] => c
  | _ :: rest =>
    { c with entries := rest
             stats := { c.stats with evictions := c.stats.evictions + 1 } }

/-- `SemanticCache.get`: count the query; exact-key hit (with expiry check),
else best semantically similar non-expired entry above the threshold, else a
miss.  The Python guard `if best_match` is truthiness: a best match whose key
is the empty string is treated as no match. -/
def SemanticCache.get (c : SemanticCache α) (query : String)
    (query_embedding : List Frac) (now : Frac) : Option α × SemanticCache α :=
  let c := { c with stats := { c.stats with total_queries := c.stats.total_queries + 1 } }
  match pyGet c.entries query with
  | some entry =>
    if c.isExpired now entry then
      let c := c.removeEntry query
      (none, { c with stats := { c.stats with expired := c.stats.expired + 1,
                                              misses := c.stats.misses + 1 } })
    else
      let c := c.updateAccess query now
      (some entry.result,
       { c with stats := { c.stats with hits := c.stats.hits + 1 } })
  | none =>
    let best := c.entries.foldl
      (fun (acc : Option String × Frac) p =>
        if c.isExpired now p.2 then acc
        else
          let similarity := c.sim query_embedding p.2.query_embedding
          if Frac.blt acc.2 similarity then (some p.1, similarity) else acc)
      (none, Frac.ofNat 0)
    match best.1 with
    | some bq =>
      if bq ≠ "" ∧ Frac.ble c.similarity_threshold best.2 = true then
        let c := c.updateAccess bq now
        let c := { c with stats := { c.stats with hits := c.stats.hits + 1 } }
        match pyGet c.entries bq with
        | some entry => (some entry.result, c)
        | none => (none, c)
      else
        (none, { c with stats := { c.stats with misses := c.stats.misses + 1 } })
    | none =>
      (none, { c with stats := { c.stats with misses := c.stats.misses + 1 } })

/-- `SemanticCache.put`: evict the LRU head when at capacity and the key is
new; then (re-)insert the entry at the tail. -/
def SemanticCache.put (c : SemanticCache α) (query : String)
    (query_embedding : List Frac) (result : α) (now : Frac) : SemanticCache α :=
  let c :=
    if c.max_size ≤ c.entries.length ∧ (pyGet c.entries query).isNone = true then
      c.evictLru
    else c
  let entry : CacheEntry α := ⟨query, query_embedding, result, now, 0, now⟩
  let c :=
    if (pyGet c.entries query).isSome then
      { c with entries := pyDel c.entries query }
    else c
  { c with entries := c.entries ++ [(query, entry)] }

/-- `SemanticCache.clear`. -/
def SemanticCache.clear (c : SemanticCache α) : SemanticCache α :=
  { c with entries := [] }

/-- `SemanticCache.clear_expired`: collect the expired keys, remove each,
counting them in `stats.expired`; return the number removed. -/
def SemanticCache.clear_expired (c : SemanticCache α) (now : Frac) :
    Nat × SemanticCache α :=
  let expired_queries := (c.entries.filter (fun p => c.isExpired now p.2)).map (·.1)
  let c2 := expired_queries.foldl
    (fun a q =>
      { a with entries := pyDel a.entries q
               stats := { a.stats with expired := a.stats.expired + 1 } })
    c
  (expired_queries.length, c2)

/-- A public cache operation together with the wall-clock time it happens at. -/
inductive CacheOp (α : Type) where
  | get (query : String) (emb : List Frac) (now : Frac)
  | put (query : String) (emb : List Frac) (result : α) (now : Frac)
  | clear
  | clearExpired (now : Frac)

def SemanticCache.step (c : SemanticCache α) : CacheOp α → SemanticCache α
  | .get q e now => (c.get q e now).2
  | .put q e r now => c.put q e r now
  | .clear => c.clear
  | .clearExpired now => (c.clear_expired now).2

def SemanticCache.run (c : SemanticCache α) (ops : List (CacheOp α)) :
    SemanticCache α :=
  ops.foldl SemanticCache.step c

/-! ## Cross-encoder reranker (src/retrieval/cross_encoder_reranker.py) -/

structure RerankResult where
  chunk : ScoredChunk
  ensemble_score : Frac
  semantic_score : Frac
  bm25_score : Frac
  cross_encoder_score : Frac
  rank : Nat
  deriving DecidableEq

/-- Python `max(a, b)`: keep `a` unless `b` is strictly greater. -/
def pyMax (a b : Frac) : Frac := if Frac.blt a b then b else a

/-- Python `min(a, b)`: keep `a` unless `b` is strictly smaller. -/
def pyMin (a b : Frac) : Frac := if Frac.blt b a then b else a

structure CrossEncoderReranker where
  semantic_weight : Frac
  bm25_weight : Frac
  cross_encoder_weight : Frac
  use_cross_encoder : Bool
  score_pair_oracle : String → String → Option Frac

/-- `CrossEncoderReranker.__init__`: store the weights divided by their
total (Python float division raises `ZeroDivisionError` on a zero total).
`score_pair_oracle` models `score_pair` when the cross-encoder is enabled:
it calls the external embedder and computes a cosine similarity mapped to
`[0, 1]`, returning `none` on failure. -/
def CrossEncoderReranker.init (semantic_weight bm25_weight cross_encoder_weight : Frac)
    (use_cross_encoder : Bool) (oracle : String → String → Option Frac) :
    Except String CrossEncoderReranker :=
  let total := (semantic_weight.add bm25_weight).add cross_encoder_weight
  if total.num = 0 then .error "ZeroDivisionError"
  else .ok ⟨semantic_weight.div total, bm25_weight.div total,
            cross_encoder_weight.div total, use_cross_encoder, oracle⟩

/-- `CrossEncoderReranker.rerank`: clamp the semantic and BM25 scores to
`[0, 1]`; the cross-encoder contribution defaults to the neutral `0.5`
(also on oracle failure); ensemble-score every chunk with its original rank
`input position + 1`; sort by descending ensemble score (stable); overwrite
every rank with the post-sort position; return the first `top_k`. -/
def CrossEncoderReranker.rerank (r : CrossEncoderReranker) (query : String)
    (chunks : List ScoredChunk) (top_k : Nat := 5) : List RerankResult :=
  if chunks = [] then []
  else
    let rerank_results := chunks.enum.map (fun p =>
      let semantic_score := pyMin (pyMax (p.2.score.getD (Frac.ofNat 0)) (Frac.ofNat 0)) (Frac.ofNat 1)
      let bm25_score := pyMin (pyMax (p.2.bm25_score.getD (Frac.ofNat 0)) (Frac.ofNat 0)) (Frac.ofNat 1)
      let cross_encoder_score :=
        if r.use_cross_encoder then
          match r.score_pair_oracle query (⟨p.2.content.data.take 500⟩ : String) with
          | some ce => ce
          | none => fracHalf
        else fracHalf
      let ensemble_score :=
        ((r.semantic_weight.mul semantic_score).add
          (r.bm25_weight.mul bm25_score)).add
          (r.cross_encoder_weight.mul cross_encoder_score)
      RerankResult.mk p.2 ensemble_score semantic_score bm25_score
        cross_encoder_score (p.1 + 1))
    let sorted := pySort (fun a b => Frac.ble b.ensemble_score a.ensemble_score)
      rerank_results
    let ranked := sorted.enum.map (fun p => { p.2 with rank := p.1 + 1 })
    ranked.take top_k

/-- `CrossEncoderReranker.rerank_simple`: the chunks of `rerank` with
`final_score` and `original_rank` attached. -/
def CrossEncoderReranker.rerank_simple (r : CrossEncoderReranker) (query : String)
    (chunks : List ScoredChunk) (top_k : Nat := 5) : List ScoredChunk :=
  (r.rerank query chunks top_k).map (fun res =>
    { res.chunk with final_score := some res.ensemble_score
                     original_rank := some res.rank })

/-! ## Context settings (src/retrieval/context_settings.py) -/

/-- A `ContextConfig` record; the six required keys of the source's
`TypedDict` are the six fields, so every record carries all of them. -/
structure ContextConfig where
  mode : String
  chunks : Nat
  max_descendants : Nat
  max_siblings : Nat
  include_parents : Bool
  enable_structured_output : Bool
  deriving DecidableEq

def INTENT_CONTEXT_MAPPING : List (String × ContextConfig) :=
  [("documents", ⟨"specific", 2, 5, 2, true, true⟩),
   ("fees", ⟨"specific", 2, 3, 1, true, true⟩),
   ("location", ⟨"specific", 2, 3, 1, true, true⟩),
   ("requirements", ⟨"comparison", 2, 2, 3, true, true⟩),
   ("process", ⟨"list", 2, 40, 5, true, true⟩),
   ("legal", ⟨"explanation", 3, 4, 3, true, true⟩),
   ("timeline", ⟨"explanation", 3, 4, 3, true, true⟩),
   ("overview", ⟨"general", 3, 5, 2, true, false⟩)]

/-- `get_context_config`: mapping lookup with fallback to the `overview`
record for unknown intents. -/
def get_context_config (intent : String) : ContextConfig :=
  match pyGet INTENT_CONTEXT_MAPPING intent with
  | some c => c
  | none => (pyGet INTENT_CONTEXT_MAPPING "overview").getD
      ⟨"general", 3, 5, 2, true, false⟩

/-- `validate_config`: all required keys present (by construction of the
record) and the three numeric ranges hold; the `< 0` checks of the source are
vacuous over `Nat`. -/
def validate_config (config : ContextConfig) : Bool :=
  if config.chunks < 1 ∨ 10 < config.chunks then false
  else if 100 < config.max_descendants then false
  else if 20 < config.max_siblings then false
  else true

/-! ## Vector store (src/retrieval/vector_store.py)

The Qdrant client is an external service; `scroll` is modelled as a filtered
scan of the stored collection with a limit, per the vector-store contract of
the specification.  The nearest-neighbour `search` is modelled as an oracle
in the pipeline environment. -/

/-- Formatted result row produced by the vector store: the payload fields
with `thu_tuc_id` renamed to `mã_thủ_tục` and a `score`. -/
structure FormattedHit where
  chunk_id : String
  ma_thu_tuc : String
  chunk_type : String
  chunk_tier : String
  parent_chunk_id : Option String
  content : String
  metadata : List (String × String)
  score : Frac
  deriving DecidableEq

def Chunk.toFormatted (c : Chunk) (score : Frac) : FormattedHit :=
  ⟨c.chunk_id, c.thu_tuc_id, c.chunk_type, c.chunk_tier, c.parent_chunk_id,
   c.content, c.metadata, score⟩

/-- A formatted result row as the plain result dictionary flowing onward
through the pipeline. -/
def FormattedHit.toScored (h : FormattedHit) : ScoredChunk :=
  ⟨h.chunk_id, some h.ma_thu_tuc, none, h.chunk_type, h.chunk_tier,
   h.parent_chunk_id, h.content, h.metadata, some h.score,
   none, none, none, none, none, none, none, none⟩

/-- Python truthiness of a filter value (`if chunk_type_filter:`). -/
def filterValTruthy : FilterVal → Bool
  | .str s => s ≠ ""
  | .strs l => l ≠ []

def optFilterValTruthy : Option FilterVal → Bool
  | none => false
  | some v => filterValTruthy v

/-- `MatchValue` / `MatchAny` on `chunk_type`: a single value matches by
equality, a list by membership. -/
def matchChunkType (ctf : FilterVal) (ct : String) : Bool :=
  match ctf with
  | .str s => ct == s
  | .strs l => l.contains ct

namespace QdrantVectorStore

/-- The Qdrant `scroll` call: a filtered scan of the collection, limited. -/
def scroll (collection : List Chunk) (pred : Chunk → Bool) (limit : Nat) :
    List Chunk :=
  (collection.filter pred).take limit

/-- Tuple sort key of `search_by_code`:
`(chunk_tier != "parent", chunk_id)`, compared lexicographically with
`False < True` and Python string order on the chunk id. -/
def codeSortLe (a b : FormattedHit) : Bool :=
  let pa : Bool := a.chunk_tier ≠ "parent"
  let pb : Bool := b.chunk_tier ≠ "parent"
  if pa = pb then strLe a.chunk_id b.chunk_id else !pa && pb

/-- `QdrantVectorStore.search_by_code`: gather parent chunks (when a truthy
chunk-type filter is present and parents are included) and child chunks of
the procedure code, or a single unfiltered query when no truthy chunk-type
filter is given; format with score `1.0`; drop excluded tiers; sort parents
first, then by chunk id (stable). -/
def search_by_code (collection : List Chunk) (thu_tuc_id : String)
    (include_parent : Bool := true) (include_children : Bool := true)
    (chunk_type_filter : Option FilterVal := none) : List FormattedHit :=
  let all_points :=
    if optFilterValTruthy chunk_type_filter && include_parent then
      scroll collection
        (fun c => c.thu_tuc_id == thu_tuc_id && c.chunk_tier == "parent") 100
    else []
  let all_points := all_points ++
    (if include_children then
      scroll collection
        (fun c => c.thu_tuc_id == thu_tuc_id && c.chunk_tier == "child" &&
          (match chunk_type_filter with
           | some ctf => if filterValTruthy ctf then matchChunkType ctf c.chunk_type else true
           | none => true)) 100
    else [])
  let all_points :=
    if !(optFilterValTruthy chunk_type_filter) then
      scroll collection (fun c => c.thu_tuc_id == thu_tuc_id) 100
    else all_points
  let formatted_results := all_points.map (fun c => c.toFormatted (Frac.ofNat 1))
  let formatted_results :=
    if !include_parent then
      formatted_results.filter (fun r => r.chunk_tier != "parent")
    else formatted_results
  let formatted_results :=
    if !include_children then
      formatted_results.filter (fun r => r.chunk_tier != "child")
    else formatted_results
  pySort codeSortLe formatted_results

end QdrantVectorStore

/-! ## Query descriptor and retrieval result (pipeline data model) -/

structure QueryInfo where
  original_query : String
  intent : String
  query_variations : List String
  entities : List (String × String)
  filters : List (String × FilterVal)
  exact_code : Option String

/-- A value of the `metadata` bag of a retrieval result. -/
inductive MetaVal where
  | str (s : String)
  | nat (n : Nat)
  | strs (l : List String)
  deriving DecidableEq

structure RetrievalResult where
  query : String
  intent : String
  retrieved_chunks : List ScoredChunk
  context : String
  confidence : Frac
  metadata : List (String × MetaVal)

/-! ## Retrieval pipeline (src/retrieval/retrieval_pipeline.py) -/

/-- Environment of external collaborators of a `retrieve` call: the embedder,
the query enhancer (LLM backed), the stored Qdrant collection, the opaque
nearest-neighbour search (already formatted, per the adapter), and the wall
clock. -/
structure PipelineEnv where
  embed : String → List Frac
  enhance_query : String → QueryInfo
  collection : List Chunk
  vector_search : List Frac → Nat → List (String × FilterVal) → List FormattedHit
  now : Frac

/-- The mutable components of a `HierarchicalRetrievalPipeline` instance that
`retrieve` consults. -/
structure Pipeline where
  bm25 : Option SimpleBM25
  reranker : Option CrossEncoderReranker
  cache : Option (SemanticCache RetrievalResult)

namespace HierarchicalRetrievalPipeline

/-- `_truncate_chunk_if_needed`: return the content unchanged when its
character count is within `4 × max_tokens`; otherwise, when it has more than
`max_tokens` whitespace-separated words, keep the first and last
`max_tokens // 2` words around a single elision marker. -/
def truncate_chunk_if_needed (content : String) (max_tokens : Nat := 1200) : String :=
  let max_chars := max_tokens * 4
  if content.length ≤ max_chars then content
  else
    let words := pySplitWs content
    if max_tokens < words.length then
      let half := max_tokens / 2
      let lastPart := if half = 0 then words else words.drop (words.length - half)
      String.intercalate " " (words.take half) ++
        "\n\n[... Nội dung quá dài, đã rút gọn ...]\n\n" ++
        String.intercalate " " lastPart
    else content

/-- Stages 3 and 4, `_hierarchical_retrieve`: parent semantic search, then
per-variation child search with the chunk-type filter (falling back to all
child chunks when the strict search is empty), cross-tier filtering against
the parent procedure codes, and the keep-top-5 fallback. -/
def hierarchical_retrieve (env : PipelineEnv) (query_info : QueryInfo)
    (top_k_parent : Nat := 5) (top_k_child : Nat := 20) :
    List FormattedHit × List (String × List ScoredChunk) :=
  let query_embedding := env.embed query_info.original_query
  let parent_results := env.vector_search query_embedding top_k_parent
    [("chunk_tier", .str "parent")]
  let parent_thu_tuc_ids := parent_results.map (·.ma_thu_tuc)
  let all_child_results := query_info.query_variations.foldl
    (fun acc query_variation =>
      let query_emb := env.embed query_variation
      let child_results :=
        match pyGet query_info.filters "chunk_type" with
        | some ctv =>
          if filterValTruthy ctv then
            let strict := env.vector_search query_emb top_k_child
              [("chunk_tier", .str "child"), ("chunk_type", ctv)]
            if strict = [] then
              env.vector_search query_emb top_k_child [("chunk_tier", .str "child")]
            else strict
          else env.vector_search query_emb top_k_child [("chunk_tier", .str "child")]
        | none => env.vector_search query_emb top_k_child [("chunk_tier", .str "child")]
      let filtered_children := child_results.filter
        (fun c => parent_thu_tuc_ids.contains c.ma_thu_tuc)
      let tagged :=
        if filtered_children.isEmpty && !child_results.isEmpty then
          (child_results.take 5).map
            (fun c => { c.toScored with cross_tier_match := some false })
        else
          filtered_children.map
            (fun c => { c.toScored with cross_tier_match := some true })
      pyUpsert acc query_variation tagged)
    []
  (parent_results, all_child_results)

/-- Accumulator entry of `_reciprocal_rank_fusion`. -/
structure FusedEntry where
  doc : ScoredChunk
  rrf_score : Frac
  count : Nat
  semantic_count : Nat
  bm25_count : Nat

/-- Stage 6, `_reciprocal_rank_fusion`: accumulate `1/(k+rank)` per source
(boosted by `1.2` for a source whose lowercased name contains `bm25`),
keeping the first-seen document per chunk id, then sort by descending total
RRF score and attach the fusion fields. -/
def reciprocal_rank_fusion (results_per_query : List (String × List ScoredChunk))
    (k : Nat := 60) : List ScoredChunk :=
  let fused_scores := results_per_query.foldl
    (fun fused qr =>
      let is_bm25 := strHasSub (pyLower qr.1) "bm25"
      qr.2.enum.foldl
        (fun fused p =>
          let rank := p.1 + 1
          let doc := p.2
          let doc_id := doc.chunk_id
          let rrf_score := (Frac.ofNat 1).div (Frac.ofNat (k + rank))
          let rrf_score :=
            if is_bm25 then rrf_score.mul ⟨12, 10, by norm_num⟩ else rrf_score
          let cur := (pyGet fused doc_id).getD ⟨doc, Frac.ofNat 0, 0, 0, 0⟩
          let entry : FusedEntry :=
            ⟨cur.doc, cur.rrf_score.add rrf_score, cur.count + 1,
             (if is_bm25 then cur.semantic_count else cur.semantic_count + 1),
             (if is_bm25 then cur.bm25_count + 1 else cur.bm25_count)⟩
          pyUpsert fused doc_id entry)
        fused)
    []
  let ranked_docs := pySort
    (fun a b => Frac.ble b.rrf_score a.rrf_score)
    (fused_scores.map (·.2))
  ranked_docs.map (fun item =>
    { item.doc with
      rrf_score := some item.rrf_score
      retrieval_count := some item.count
      source_semantic := some item.semantic_count
      source_bm25 := some item.bm25_count })

/-- Stage 7, `_rerank_with_score_fusion`: ensemble reranking when a reranker
is present, else the simple `0.6·rrf + 0.4·semantic` fusion, sorted
descending and truncated. -/
def rerank_with_score_fusion (reranker : Option CrossEncoderReranker)
    (query : String) (documents : List ScoredChunk) (top_k : Nat := 5) :
    List ScoredChunk :=
  if documents = [] then []
  else
    match reranker with
    | some r => r.rerank_simple query documents top_k
    | none =>
      let docs := documents.map (fun doc =>
        let vector_score := doc.score.getD (Frac.ofNat 0)
        let rrf_score := doc.rrf_score.getD (Frac.ofNat 0)
        let final_score := ((⟨6, 10, by norm_num⟩ : Frac).mul rrf_score).add
          ((⟨4, 10, by norm_num⟩ : Frac).mul vector_score)
        { doc with final_score := some final_score })
      (pySort
        (fun a b =>
          Frac.ble (b.final_score.getD (Frac.ofNat 0)) (a.final_score.getD (Frac.ofNat 0)))
        docs).take top_k

/-- The `'=' * 80` separator line. -/
def eqLine : String := ⟨List.replicate 80 '='⟩

def natPad4 (n : Nat) : String :=
  if n < 10 then "000" ++ Nat.repr n
  else if n < 100 then "00" ++ Nat.repr n
  else if n < 1000 then "0" ++ Nat.repr n
  else Nat.repr n

/-- Decimal rendering of a score to four places (Python `f"{x:.4f}"`,
modelled with round half up; no claim inspects the rendered text). -/
def formatFrac4 (x : Frac) : String :=
  let q : Int := (x.num * 10000 * 2 + x.den) / (2 * x.den)
  let sign := if q < 0 then "-" else ""
  sign ++ Nat.repr (q.natAbs / 10000) ++ "." ++ natPad4 (q.natAbs % 10000)

/-- Header lines shared by the two context block shapes. -/
def blockHeader (tag : String) (n : Nat) (child : ScoredChunk) : String :=
  "\n" ++ eqLine ++ "\n[" ++ tag ++ " " ++ Nat.repr n ++ "] THỦ TỤC: " ++
    ((pyGet child.metadata "tên_thủ_tục").getD "N/A") ++
    "\nMã: " ++ ((pyGet child.metadata "mã_thủ_tục").getD (child.ma_thu_tuc.getD "N/A")) ++
    "\nLĩnh vực: " ++ ((pyGet child.metadata "lĩnh_vực").getD "N/A") ++
    "\nChunk type: " ++ child.chunk_type ++
    "\nRelevance score: " ++ formatFrac4 (child.final_score.getD (Frac.ofNat 0)) ++
    "\n" ++ eqLine ++ "\n\n"

/-- `max(c.get("final_score", 0) for c in chunks)` (first maximum); the
groups this is applied to are non-empty by construction. -/
def groupMaxScore : List ScoredChunk → Frac
  | [] => Frac.ofNat 0
  | c :: rest =>
    rest.foldl (fun m x => pyMax m (x.final_score.getD (Frac.ofNat 0)))
      (c.final_score.getD (Frac.ofNat 0))

/-- Sibling collection loop of `_assemble_context`: walk the procedures not
among the top ones in order, taking each group's best chunk, stopping as soon
as `max_siblings` are collected. -/
def collectSiblings (top_ids : List String) (max_siblings : Nat) :
    List (String × List ScoredChunk) → List ScoredChunk → List ScoredChunk
  | [], acc => acc
  | pp :: rest, acc =>
    let acc2 :=
      if !(top_ids.contains pp.1) then
        match pp.2 with
        | [] => acc
        | c :: cs =>
          acc ++ [cs.foldl
            (fun m x =>
              if Frac.blt (m.final_score.getD (Frac.ofNat 0))
                  (x.final_score.getD (Frac.ofNat 0)) then x else m)
            c]
      else acc
    if max_siblings ≤ acc2.length then acc2
    else collectSiblings top_ids max_siblings rest acc2

/-- Stage 8, `_assemble_context`: group child candidates by procedure code,
rank procedures by their best score, keep the top `config.chunks` procedures
and `config.max_descendants` chunks per procedure, prepend the resolved
parent overview to the first chunk of a procedure, then inject up to
`config.max_siblings` best chunks of the remaining procedures; confidence is
`min(1, 2 × average final score)` over the selected chunks. -/
def assemble_context (parent_results child_results : List ScoredChunk)
    (config : ContextConfig) : String × Frac :=
  let parent_lookup := parent_results.foldl
    (fun m p => pyUpsert m p.chunk_id p) []
  let chunks_by_procedure := child_results.foldl
    (fun m child =>
      let proc_id := child.ma_thu_tuc.getD
        ((pyGet child.metadata "mã_thủ_tục").getD "unknown")
      pyUpsert m proc_id ((pyGet m proc_id).getD [] ++ [child]))
    []
  let sorted_procedures := pySort
    (fun a b => Frac.ble (groupMaxScore b.2) (groupMaxScore a.2))
    chunks_by_procedure
  let top_procedures := sorted_procedures.take config.chunks
  let step := fun (acc : Nat × List String × List ScoredChunk)
      (pp : String × List ScoredChunk) =>
    let proc_id := pp.1
    let sorted_chunks := pySort
      (fun a b =>
        Frac.ble (b.final_score.getD (Frac.ofNat 0)) (a.final_score.getD (Frac.ofNat 0)))
      pp.2
    let selected_chunks := sorted_chunks.take config.max_descendants
    let parent : Option ScoredChunk :=
      if config.include_parents ∧ selected_chunks ≠ [] then
        let viaId :=
          match selected_chunks.head? with
          | some c0 =>
            match c0.parent_chunk_id with
            | some pid => pyGet parent_lookup pid
            | none => none
          | none => none
        match viaId with
        | some p => some p
        | none => parent_results.find? (fun p => p.ma_thu_tuc == some proc_id)
      else none
    selected_chunks.enum.foldl
      (fun (acc2 : Nat × List String × List ScoredChunk) q =>
        let i := q.1 + 1
        let child := q.2
        let total := acc2.1 + 1
        let block := blockHeader "CHUNK" total child
        let block :=
          if parent.isSome && (i == 1) && config.include_parents then
            match parent with
            | some p =>
              block ++ "[OVERVIEW]\n" ++ truncate_chunk_if_needed p.content ++ "\n\n"
            | none => block
          else block
        let block := block ++ "[DETAILED INFO]\n" ++
          truncate_chunk_if_needed child.content ++ "\n"
        (total, acc2.2.1 ++ [block], acc2.2.2 ++ [child]))
      acc
  let main := top_procedures.foldl step (0, [], [])
  let withSiblings :=
    if 0 < config.max_siblings then
      let top_proc_ids := top_procedures.map (·.1)
      let sibling_chunks :=
        collectSiblings top_proc_ids config.max_siblings sorted_procedures []
      (sibling_chunks.take config.max_siblings).foldl
        (fun (acc2 : Nat × List String × List ScoredChunk) child =>
          let total := acc2.1 + 1
          let block := blockHeader "RELATED CHUNK" total child ++
            "[RELATED INFO]\n" ++ truncate_chunk_if_needed child.content ++ "\n"
          (total, acc2.2.1 ++ [block], acc2.2.2 ++ [child]))
        main
    else main
  let context_blocks := withSiblings.2.1
  let all_chunks := withSiblings.2.2
  let confidence :=
    if all_chunks ≠ [] then
      let avg_score := (all_chunks.foldl
        (fun s c => s.add (c.final_score.getD (Frac.ofNat 0))) (Frac.ofNat 0)).div
        (Frac.ofNat all_chunks.length)
      pyMin (Frac.ofNat 1) (avg_score.mul (Frac.ofNat 2))
    else Frac.ofNat 0
  (String.intercalate "\n" context_blocks, confidence)

end HierarchicalRetrievalPipeline

namespace HierarchicalRetrievalPipeline

/-- Stage 2, the exact-match routing block of `retrieve`: when the enhancer
detected a (truthy) procedure code and the code lookup is non-empty, build
the exact-match result with perfect confidence, cache it, and return it;
otherwise signal fall-through to hybrid search with `none`. -/
def exact_match_route (env : PipelineEnv) (pl : Pipeline) (question : String)
    (query_info : QueryInfo) (context_config : ContextConfig)
    (query_embedding : Option (List Frac)) : Option (RetrievalResult × Pipeline) :=
  match query_info.exact_code with
  | none => none
  | some code =>
    if code = "" then none
    else
      let chunk_type_filter := pyGet query_info.filters "chunk_type"
      let exact_results := QdrantVectorStore.search_by_code env.collection code
        true true chunk_type_filter
      if exact_results.isEmpty then none
      else
        let parent_results := exact_results.filter (fun r => r.chunk_tier == "parent")
        let child_results := exact_results.filter (fun r => r.chunk_tier == "child")
        let ac := assemble_context (parent_results.map FormattedHit.toScored)
          (child_results.map FormattedHit.toScored) context_config
        let exact_match_result : RetrievalResult :=
          { query := question
            intent := query_info.intent
            retrieved_chunks := exact_results.map FormattedHit.toScored
            context := ac.1
            confidence := Frac.ofNat 1
            metadata := [("search_type", .str "exact_code_match"),
                         ("thu_tuc_id", .str code),
                         ("num_parent_chunks", .nat parent_results.length),
                         ("num_child_chunks", .nat child_results.length)] }
        match pl.cache with
        | some cache =>
          let emb := query_embedding.getD (env.embed question)
          some (exact_match_result,
            { pl with cache := some (cache.put question emb exact_match_result env.now) })
        | none => some (exact_match_result, pl)

/-- Stage 5 of `retrieve`: BM25 keyword augmentation.  Returns the
`bm25_results` map (`{"bm25": chunks}` when the index is built and found
chunks, empty otherwise); search failures propagate. -/
def bm25_stage (pl : Pipeline) (question : String) (query_info : QueryInfo)
    (top_k_child : Nat) : Except String (List (String × List ScoredChunk)) :=
  match pl.bm25 with
  | some bm =>
    if bm.is_built then do
      let base := [("chunk_tier", FilterVal.str "child")]
      let bm25_filters :=
        match pyGet query_info.filters "chunk_type" with
        | some ctv =>
          if filterValTruthy ctv then pyUpsert base "chunk_type" ctv else base
        | none => base
      let bm25_chunks ← bm.search question top_k_child bm25_filters
      pure (if bm25_chunks.isEmpty then ([] : List (String × List ScoredChunk))
            else [("bm25", bm25_chunks)])
    else pure []
  | none => pure []

/-- Stages 6–8 of `retrieve` (pure): merge the per-variation and BM25 result
maps, fuse, rerank, assemble the context, build the result and cache it. -/
def hybrid_finish (env : PipelineEnv) (pl : Pipeline) (question : String)
    (query_info : QueryInfo) (context_config : ContextConfig)
    (parent_results : List FormattedHit)
    (child_results bm25_results : List (String × List ScoredChunk))
    (top_k_final : Nat) (query_embedding : Option (List Frac)) :
    RetrievalResult × Pipeline :=
  let all_child_results := bm25_results.foldl (fun m p => pyUpsert m p.1 p.2)
    child_results
  let fused_results := reciprocal_rank_fusion all_child_results 60
  let reranked_results := rerank_with_score_fusion pl.reranker question
    fused_results top_k_final
  let ac := assemble_context (parent_results.map FormattedHit.toScored)
    reranked_results context_config
  let result : RetrievalResult :=
    { query := question
      intent := query_info.intent
      retrieved_chunks := reranked_results
      context := ac.1
      confidence := ac.2
      metadata := [("num_parent_chunks", .nat parent_results.length),
                   ("num_child_chunks", .nat reranked_results.length),
                   ("query_variations", .strs query_info.query_variations)] }
  match pl.cache with
  | some cache =>
    let emb := query_embedding.getD (env.embed question)
    (result, { pl with cache := some (cache.put question emb result env.now) })
  | none => (result, pl)

/-- Stages 3–8 of `retrieve` (the hybrid path): hierarchical retrieval, the
BM25 stage, and the pure fusion / reranking / assembly / caching tail. -/
def hybrid_route (env : PipelineEnv) (pl : Pipeline) (question : String)
    (query_info : QueryInfo) (context_config : ContextConfig)
    (top_k_parent top_k_child top_k_final : Nat)
    (query_embedding : Option (List Frac)) :
    Except String (RetrievalResult × Pipeline) := do
  let pr := hierarchical_retrieve env query_info top_k_parent top_k_child
  let bm25_results ← bm25_stage pl question query_info top_k_child
  pure (hybrid_finish env pl question query_info context_config pr.1 pr.2
    bm25_results top_k_final query_embedding)

/-- Stages 1–8 of `retrieve` (after the cache check): query understanding,
intent-based context configuration (overriding `top_k_final` with the
intent's `chunks`), exact-match routing, then the hybrid path. -/
def retrieve_main (env : PipelineEnv) (pl : Pipeline) (question : String)
    (top_k_parent top_k_child top_k_final : Nat)
    (query_embedding : Option (List Frac)) :
    Except String (RetrievalResult × Pipeline) :=
  let query_info := env.enhance_query question
  let context_config := get_context_config query_info.intent
  let top_k_final := context_config.chunks
  match exact_match_route env pl question query_info context_config query_embedding with
  | some out => .ok out
  | none =>
    hybrid_route env pl question query_info context_config top_k_parent
      top_k_child top_k_final query_embedding

/-- `HierarchicalRetrievalPipeline.retrieve`: stage 0 cache check (returning
a cached result on a hit), then `retrieve_main`.  The returned pipeline
carries the updated cache. -/
def retrieve (env : PipelineEnv) (pl : Pipeline) (question : String)
    (top_k_parent : Nat := 5) (top_k_child : Nat := 100) (top_k_final : Nat := 5) :
    Except String (RetrievalResult × Pipeline) :=
  match pl.cache with
  | some cache =>
    let query_embedding := env.embed question
    let gr := cache.get question query_embedding env.now
    let pl2 := { pl with cache := some gr.2 }
    match gr.1 with
    | some cached_result => .ok (cached_result, pl2)
    | none =>
      retrieve_main env pl2 question top_k_parent top_k_child top_k_final
        (some query_embedding)
  | none =>
    retrieve_main env pl question top_k_parent top_k_child top_k_final none

end HierarchicalRetrievalPipeline

/-! ## Shared helper lemmas -/

set_option maxRecDepth 8000

instance {ε α : Type} [DecidableEq ε] [DecidableEq α] : DecidableEq (Except ε α) :=
  fun a b =>
  match a, b with
  | .ok x, .ok y =>
    if h : x = y then isTrue (by rw [h]) else isFalse (fun c => h (by injection c))
  | .error x, .error y =>
    if h : x = y then isTrue (by rw [h]) else isFalse (fun c => h (by injection c))
  | .ok _, .error _ => isFalse (fun c => Except.noConfusion c)
  | .error _, .ok _ => isFalse (fun c => Except.noConfusion c)

theorem pyGet_mem_values {β : Type} {m : List (String × β)} {k : String} {v : β}
    (h : pyGet m k = some v) : v ∈ m.map Prod.snd := by
  induction m with
  | nil => simp [pyGet] at h
  | cons p rest ih =>
    simp only [pyGet] at h
    by_cases hk : p.1 = k
    · simp only [if_pos hk, Option.some.injEq] at h
      simp [← h]
    · simp only [if_neg hk] at h
      simp [ih h]

/-- Shared: `get_context_config` always yields one of the eight records of
the intent table. -/
theorem get_context_config_mem (intent : String) :
    get_context_config intent ∈ INTENT_CONTEXT_MAPPING.map Prod.snd := by
  unfold get_context_config
  cases h : pyGet INTENT_CONTEXT_MAPPING intent with
  | some c => exact pyGet_mem_values h
  | none => decide

theorem pyDel_length_le {β : Type} (m : List (String × β)) (k : String) :
    (pyDel m k).length ≤ m.length := by
  induction m with
  | nil => simp [pyDel]
  | cons p rest ih =>
    simp only [pyDel]
    by_cases hk : p.1 = k
    · simp [if_pos hk]
    · simp only [if_neg hk, List.length_cons]
      omega

theorem pyDel_length_of_mem {β : Type} {m : List (String × β)} {k : String} {v : β}
    (h : pyGet m k = some v) : (pyDel m k).length + 1 = m.length := by
  induction m with
  | nil => simp [pyGet] at h
  | cons p rest ih =>
    simp only [pyGet] at h
    simp only [pyDel]
    by_cases hk : p.1 = k
    · simp [if_pos hk]
    · simp only [if_neg hk] at h
      simp only [if_neg hk, List.length_cons]
      have := ih h
      omega

/-! ## Claim C10: intent table and its validation -/

/-- C10: for every input string, `get_context_config` returns one of the
eight records of the intent-to-context table, and that record passes
`validate_config` (all six keys present by record construction, `chunks`
between 1 and 10, `max_descendants` between 0 and 100, `max_siblings`
between 0 and 20). -/
theorem C10_context_config_valid (intent : String) :
    get_context_config intent ∈ INTENT_CONTEXT_MAPPING.map Prod.snd ∧
    validate_config (get_context_config intent) = true := by
  refine ⟨get_context_config_mem intent, ?_⟩
  have h := get_context_config_mem intent
  simp only [INTENT_CONTEXT_MAPPING, List.map_cons, List.map_nil,
    List.mem_cons, List.not_mem_nil, or_false] at h
  rcases h with h | h | h | h | h | h | h | h <;> rw [h] <;> decide

/-! ## Claim C6: building over an empty chunk list -/

/-- C6 counterexample: building a BM25 index from an empty chunk list does
not succeed (the claim asserts it succeeds with `num_docs = 0`). -/
theorem C6_counterexample :
    (SimpleBM25.build_index (fun x => x)
      (SimpleBM25.init [] ⟨3, 2, by norm_num⟩ ⟨3, 4, by norm_num⟩)).isOk = false := by
  decide

/-- C6 amended: building from an empty chunk list raises `ValueError` (the
state is unchanged and stays unbuilt), and search on the unbuilt instance
raises `RuntimeError`. -/
theorem C6_empty_build_raises (lg : Frac → Frac) (k1 b : Frac) (q : String)
    (topk : Nat) (fs : List (String × FilterVal)) :
    SimpleBM25.build_index lg (SimpleBM25.init [] k1 b) =
      .error "ValueError: No chunks provided. Pass chunks to __init__ or set self.chunks" ∧
    SimpleBM25.search (SimpleBM25.init [] k1 b) q topk fs =
      .error "RuntimeError: Index not built. Call build_index() first." := by
  constructor
  · rfl
  · rfl

/-! ## Claim C4: BM25 save/load round trip -/

def bmChunkA : Chunk :=
  ⟨"c1", "1.000001", "child_documents", "child", some "p1", "hello world", []⟩

def fr32 : Frac := ⟨3, 2, by norm_num⟩

def fr34 : Frac := ⟨3, 4, by norm_num⟩

/-- The index built over the single chunk `bmChunkA` (for concrete checks). -/
def bmBuilt : SimpleBM25 :=
  match SimpleBM25.build_index (fun x => x) (SimpleBM25.init [bmChunkA] fr32 fr34) with
  | .ok st => st
  | .error _ => SimpleBM25.init [] fr32 fr34

/-- C4 counterexample: `load_index` does not restore the chunk list, so on a
fresh instance (empty chunk list) the loaded index is not search-equivalent:
the original search succeeds while the loaded one raises `IndexError` when
materialising results. -/
theorem C4_counterexample :
    (SimpleBM25.build_index (fun x => x)
      (SimpleBM25.init [bmChunkA] fr32 fr34) = .ok bmBuilt) ∧
    (bmBuilt.search "hello" 20 []).isOk = true ∧
    ((SimpleBM25.init [] fr32 fr34).load_index bmBuilt.save_index).search "hello" 20 [] =
      .error "IndexError: list index out of range" := by
  refine ⟨rfl, ?_, ?_⟩ <;> decide

/-- C4 amended: `save_index` followed by `load_index` on a fresh instance
that is constructed over the same chunk list restores the state exactly, so
every search returns the same result sequence with the same scores. -/
theorem C4_save_load_roundtrip (st : SimpleBM25) (k1 b : Frac)
    (h : st.is_built = true) (q : String) (topk : Nat)
    (fs : List (String × FilterVal)) :
    ((SimpleBM25.init st.chunks k1 b).load_index st.save_index).search q topk fs =
      st.search q topk fs := by
  have heq : (SimpleBM25.init st.chunks k1 b).load_index st.save_index = st := by
    cases st with
    | mk k1' b' chunks ii dl adl nd idf ib =>
      simp only [SimpleBM25.init, SimpleBM25.load_index, SimpleBM25.save_index] at *
      simp [h]
  rw [heq]

/-- C4 witness: the round-trip theorem applied to the concrete built index
over one chunk. -/
theorem C4_witness :
    bmBuilt.is_built = true ∧
    ((SimpleBM25.init bmBuilt.chunks fr32 fr34).load_index bmBuilt.save_index).search
        "hello" 20 [] = bmBuilt.search "hello" 20 [] :=
  ⟨by decide, C4_save_load_roundtrip bmBuilt fr32 fr34 (by decide) "hello" 20 []⟩

/-! ## Claim C7: content truncation policy -/

/-- Character pattern `"a a a … a "`: `n` one-letter words, `2 n` characters. -/
def patternChars : Nat → List Char
  | 0 => []
  | n + 1 => 'a' :: ' ' :: patternChars n

theorem patternChars_length (n : Nat) : (patternChars n).length = 2 * n := by
  induction n with
  | zero => rfl
  | succ m ih => simp [patternChars, ih]; omega

theorem splitWsAux_patternChars (n : Nat) :
    splitWsAux (patternChars n) [] = List.replicate n ['a'] := by
  induction n with
  | zero => rfl
  | succ m ih =>
    show splitWsAux ('a' :: ' ' :: patternChars m) [] = _
    rw [show splitWsAux ('a' :: ' ' :: patternChars m) [] =
        ['a'] :: splitWsAux (patternChars m) [] from rfl, ih]
    rfl

theorem pySplitWs_patternChars (n : Nat) :
    pySplitWs ⟨patternChars n⟩ = List.replicate n "a" := by
  simp only [pySplitWs, splitWsAux_patternChars]
  induction n with
  | zero => rfl
  | succ m ih => simp_all [List.replicate]

/-- C7 counterexample: a content of 1201 one-letter words has more than 1200
words but at most `4 × 1200` characters, so it is not truncated — refuting
"truncated iff the word count exceeds 1200". -/
theorem C7_counterexample :
    1200 < (pySplitWs ⟨patternChars 1201⟩).length ∧
    HierarchicalRetrievalPipeline.truncate_chunk_if_needed
      (⟨patternChars 1201⟩ : String) 1200 = ⟨patternChars 1201⟩ := by
  constructor
  · rw [pySplitWs_patternChars]
    simp
  · unfold HierarchicalRetrievalPipeline.truncate_chunk_if_needed
    have hlen : (⟨patternChars 1201⟩ : String).length = 2402 := by
      show (patternChars 1201).length = 2402
      rw [patternChars_length]
    rw [if_pos (by rw [hlen]; norm_num)]

/-- C7 amended: during context assembly a chunk's content is truncated if
and only if its character count exceeds `4 × 1200` and its word count
exceeds 1200; when truncated, the output is exactly the first 600 words,
the single elision marker, and the last 600 words. -/
theorem C7_truncation_policy (content : String) :
    HierarchicalRetrievalPipeline.truncate_chunk_if_needed content 1200 =
      (if 4800 < content.length ∧ 1200 < (pySplitWs content).length then
        String.intercalate " " ((pySplitWs content).take 600) ++
          "\n\n[... Nội dung quá dài, đã rút gọn ...]\n\n" ++
          String.intercalate " " ((pySplitWs content).drop ((pySplitWs content).length - 600))
      else content) := by
  unfold HierarchicalRetrievalPipeline.truncate_chunk_if_needed
  by_cases h1 : content.length ≤ 1200 * 4
  · rw [if_pos h1, if_neg (by omega)]
  · rw [if_neg h1]
    by_cases h2 : 1200 < (pySplitWs content).length
    · rw [if_pos h2, if_pos ⟨by omega, h2⟩]
      norm_num
    · rw [if_neg h2, if_neg (by omega)]

/-! ## Cache lemmas shared by the cache claims -/

theorem SemanticCache.updateAccess_stats {α : Type} (c : SemanticCache α)
    (q : String) (t : Frac) : (c.updateAccess q t).stats = c.stats := by
  unfold SemanticCache.updateAccess
  split <;> rfl

theorem SemanticCache.updateAccess_max_size {α : Type} (c : SemanticCache α)
    (q : String) (t : Frac) : (c.updateAccess q t).max_size = c.max_size := by
  unfold SemanticCache.updateAccess
  split <;> rfl

theorem SemanticCache.updateAccess_length {α : Type} (c : SemanticCache α)
    (q : String) (t : Frac) :
    (c.updateAccess q t).entries.length = c.entries.length := by
  unfold SemanticCache.updateAccess
  split
  · rfl
  · next e heq =>
    simp only [List.length_append, List.length_cons, List.length_nil]
    have := pyDel_length_of_mem heq
    omega

theorem SemanticCache.get_stats {α : Type} (c : SemanticCache α) (q : String)
    (e : List Frac) (t : Frac) :
    (c.get q e t).2.stats.total_queries = c.stats.total_queries + 1 ∧
    ((c.get q e t).2.stats.hits = c.stats.hits + 1 ∧
      (c.get q e t).2.stats.misses = c.stats.misses ∨
     (c.get q e t).2.stats.hits = c.stats.hits ∧
      (c.get q e t).2.stats.misses = c.stats.misses + 1) := by
  unfold SemanticCache.get
  dsimp only
  split
  · split
    · exact ⟨rfl, Or.inr ⟨rfl, rfl⟩⟩
    · rw [SemanticCache.updateAccess_stats]
      exact ⟨rfl, Or.inl ⟨rfl, rfl⟩⟩
  · split
    · split
      · split <;> (rw [SemanticCache.updateAccess_stats]; exact ⟨rfl, Or.inl ⟨rfl, rfl⟩⟩)
      · exact ⟨rfl, Or.inr ⟨rfl, rfl⟩⟩
    · exact ⟨rfl, Or.inr ⟨rfl, rfl⟩⟩

theorem SemanticCache.get_max_size {α : Type} (c : SemanticCache α) (q : String)
    (e : List Frac) (t : Frac) : (c.get q e t).2.max_size = c.max_size := by
  unfold SemanticCache.get
  dsimp only
  split
  · split
    · rfl
    · dsimp only
      rw [SemanticCache.updateAccess_max_size]
  · split
    · split
      · split <;> (dsimp only; rw [SemanticCache.updateAccess_max_size])
      · rfl
    · rfl

theorem SemanticCache.get_length_le {α : Type} (c : SemanticCache α) (q : String)
    (e : List Frac) (t : Frac) :
    (c.get q e t).2.entries.length ≤ c.entries.length := by
  unfold SemanticCache.get
  dsimp only
  split
  · split
    · dsimp only [SemanticCache.removeEntry]
      exact pyDel_length_le c.entries q
    · dsimp only
      rw [SemanticCache.updateAccess_length]
  · split
    · split
      · split <;> (dsimp only; rw [SemanticCache.updateAccess_length])
      · exact le_refl _
    · exact le_refl _

theorem SemanticCache.put_stats {α : Type} (c : SemanticCache α) (q : String)
    (e : List Frac) (r : α) (t : Frac) :
    (c.put q e r t).stats.hits = c.stats.hits ∧
    (c.put q e r t).stats.misses = c.stats.misses ∧
    (c.put q e r t).stats.total_queries = c.stats.total_queries := by
  unfold SemanticCache.put SemanticCache.evictLru
  dsimp only
  split
  · split <;> split <;> exact ⟨rfl, rfl, rfl⟩
  · split <;> exact ⟨rfl, rfl, rfl⟩

theorem pyGet_cons_none {β : Type} {p : String × β} {rest : List (String × β)}
    {q : String} (h : pyGet (p :: rest) q = none) : pyGet rest q = none := by
  simp only [pyGet] at h
  by_cases hp : p.1 = q
  · simp [if_pos hp] at h
  · simpa [if_neg hp] using h

theorem SemanticCache.put_max_size {α : Type} (c : SemanticCache α) (q : String)
    (e : List Frac) (r : α) (t : Frac) :
    (c.put q e r t).max_size = c.max_size := by
  unfold SemanticCache.put SemanticCache.evictLru
  dsimp only
  split
  · split
    · split <;> rfl
    · split <;> rfl
  · split <;> rfl

theorem SemanticCache.put_length {α : Type} (c : SemanticCache α) (q : String)
    (e : List Frac) (r : α) (t : Frac)
    (hlen : c.entries.length ≤ max c.max_size 1) :
    (c.put q e r t).entries.length ≤ max c.max_size 1 := by
  cases hq : pyGet c.entries q with
  | some v =>
    have hdel := pyDel_length_of_mem hq
    unfold SemanticCache.put SemanticCache.evictLru
    dsimp only
    simp only [hq, Option.isNone_some, Bool.false_eq_true, and_false, if_false,
      Option.isSome_some, if_true, List.length_append, List.length_cons,
      List.length_nil]
    omega
  | none =>
    unfold SemanticCache.put SemanticCache.evictLru
    dsimp only
    by_cases hc : c.max_size ≤ c.entries.length
    · cases hent : c.entries with
      | nil =>
        have hms : c.max_size = 0 := by rw [hent] at hc; simpa using hc
        simp [pyGet, hms, hq, hent]
      | cons p rest =>
        rw [hent] at hq
        have hrest : pyGet rest q = none := pyGet_cons_none hq
        rw [hent] at hc hlen
        have hc2 : c.max_size ≤ rest.length + 1 := by simpa using hc
        simp only [hq, Option.isNone_none, and_true, List.length_cons,
          if_pos hc2, hrest, Option.isSome_none, Bool.false_eq_true, if_false,
          List.length_append, List.length_nil]
        simp only [List.length_cons] at hlen
        omega
    · simp only [hq, hc, Option.isNone_none, and_true, if_neg hc,
        Option.isSome_none, Bool.false_eq_true, if_false,
        List.length_append, List.length_cons, List.length_nil]
      omega

theorem clearExpiredFold_facts {α : Type} (qs : List String) :
    ∀ c : SemanticCache α,
      ((qs.foldl (fun a q =>
          { a with entries := pyDel a.entries q
                   stats := { a.stats with expired := a.stats.expired + 1 } }) c).stats.hits
          = c.stats.hits) ∧
      ((qs.foldl (fun a q =>
          { a with entries := pyDel a.entries q
                   stats := { a.stats with expired := a.stats.expired + 1 } }) c).stats.misses
          = c.stats.misses) ∧
      ((qs.foldl (fun a q =>
          { a with entries := pyDel a.entries q
                   stats := { a.stats with expired := a.stats.expired + 1 } }) c).stats.total_queries
          = c.stats.total_queries) ∧
      ((qs.foldl (fun a q =>
          { a with entries := pyDel a.entries q
                   stats := { a.stats with expired := a.stats.expired + 1 } }) c).max_size
          = c.max_size) ∧
      ((qs.foldl (fun a q =>
          { a with entries := pyDel a.entries q
                   stats := { a.stats with expired := a.stats.expired + 1 } }) c).entries.length
          ≤ c.entries.length) := by
  induction qs with
  | nil => intro c; exact ⟨rfl, rfl, rfl, rfl, le_refl _⟩
  | cons q qs ih =>
    intro c
    simp only [List.foldl_cons]
    obtain ⟨h1, h2, h3, h4, h5⟩ := ih
      { c with entries := pyDel c.entries q
               stats := { c.stats with expired := c.stats.expired + 1 } }
    refine ⟨h1, h2, h3, h4, le_trans h5 ?_⟩
    exact pyDel_length_le c.entries q

theorem SemanticCache.clear_expired_facts {α : Type} (c : SemanticCache α) (t : Frac) :
    (c.clear_expired t).2.stats.hits = c.stats.hits ∧
    (c.clear_expired t).2.stats.misses = c.stats.misses ∧
    (c.clear_expired t).2.stats.total_queries = c.stats.total_queries ∧
    (c.clear_expired t).2.max_size = c.max_size ∧
    (c.clear_expired t).2.entries.length ≤ c.entries.length := by
  unfold SemanticCache.clear_expired
  exact clearExpiredFold_facts _ c

/-! ## Claim C9: cache statistics accounting -/

theorem cacheStep_stats_inv {α : Type} (c : SemanticCache α) (op : CacheOp α)
    (h : c.stats.hits + c.stats.misses = c.stats.total_queries) :
    (c.step op).stats.hits + (c.step op).stats.misses =
      (c.step op).stats.total_queries := by
  cases op with
  | get q e t =>
    obtain ⟨h1, h2⟩ := SemanticCache.get_stats c q e t
    show (c.get q e t).2.stats.hits + (c.get q e t).2.stats.misses =
      (c.get q e t).2.stats.total_queries
    rcases h2 with ⟨ha, hb⟩ | ⟨ha, hb⟩ <;> omega
  | put q e r t =>
    obtain ⟨h1, h2, h3⟩ := SemanticCache.put_stats c q e r t
    show (c.put q e r t).stats.hits + (c.put q e r t).stats.misses =
      (c.put q e r t).stats.total_queries
    omega
  | clear => simpa [SemanticCache.step, SemanticCache.clear] using h
  | clearExpired t =>
    obtain ⟨h1, h2, h3, _, _⟩ := SemanticCache.clear_expired_facts c t
    show (c.clear_expired t).2.stats.hits + (c.clear_expired t).2.stats.misses =
      (c.clear_expired t).2.stats.total_queries
    omega

theorem cacheRun_stats_inv {α : Type} (ops : List (CacheOp α)) :
    ∀ c : SemanticCache α, c.stats.hits + c.stats.misses = c.stats.total_queries →
      (c.run ops).stats.hits + (c.run ops).stats.misses =
        (c.run ops).stats.total_queries := by
  induction ops with
  | nil => intro c h; exact h
  | cons op ops ih =>
    intro c h
    exact ih (c.step op) (cacheStep_stats_inv c op h)

/-- C9: after any operation sequence on a fresh cache,
`hits + misses = total_queries`; every `get` increments `total_queries` by
exactly one and exactly one of `hits` or `misses` by exactly one; and `put`,
`clear` and `clear_expired` never change `total_queries`. -/
theorem C9_cache_stats_accounting {α : Type} (ms : Nat) (tth th : Frac)
    (sim : List Frac → List Frac → Frac) (ops : List (CacheOp α)) :
    (((SemanticCache.init α ms tth th sim).run ops).stats.hits +
      ((SemanticCache.init α ms tth th sim).run ops).stats.misses =
      ((SemanticCache.init α ms tth th sim).run ops).stats.total_queries) ∧
    (∀ (c : SemanticCache α) (q : String) (e : List Frac) (t : Frac),
      (c.get q e t).2.stats.total_queries = c.stats.total_queries + 1 ∧
      ((c.get q e t).2.stats.hits = c.stats.hits + 1 ∧
        (c.get q e t).2.stats.misses = c.stats.misses ∨
       (c.get q e t).2.stats.hits = c.stats.hits ∧
        (c.get q e t).2.stats.misses = c.stats.misses + 1)) ∧
    (∀ (c : SemanticCache α) (q : String) (e : List Frac) (r : α) (t : Frac),
      (c.put q e r t).stats.total_queries = c.stats.total_queries) ∧
    (∀ c : SemanticCache α, c.clear.stats.total_queries = c.stats.total_queries) ∧
    (∀ (c : SemanticCache α) (t : Frac),
      (c.clear_expired t).2.stats.total_queries = c.stats.total_queries) := by
  refine ⟨cacheRun_stats_inv ops _ rfl, SemanticCache.get_stats, ?_, ?_, ?_⟩
  · intro c q e r t
    exact (SemanticCache.put_stats c q e r t).2.2
  · intro c
    rfl
  · intro c t
    exact (SemanticCache.clear_expired_facts c t).2.2.1

/-! ## Claim C3: cache capacity bound -/

theorem cacheStep_size_inv {α : Type} (ms : Nat) (c : SemanticCache α)
    (op : CacheOp α) (h : c.max_size = ms ∧ c.entries.length ≤ max ms 1) :
    (c.step op).max_size = ms ∧ (c.step op).entries.length ≤ max ms 1 := by
  obtain ⟨hm, hl⟩ := h
  cases op with
  | get q e t =>
    exact ⟨hm ▸ SemanticCache.get_max_size c q e t,
      le_trans (SemanticCache.get_length_le c q e t) hl⟩
  | put q e r t =>
    refine ⟨hm ▸ SemanticCache.put_max_size c q e r t, ?_⟩
    have := SemanticCache.put_length c q e r t (by rw [hm]; exact hl)
    rwa [hm] at this
  | clear =>
    refine ⟨hm ▸ rfl, ?_⟩
    show ([] : List (String × CacheEntry α)).length ≤ max ms 1
    simp
  | clearExpired t =>
    obtain ⟨_, _, _, h4, h5⟩ := SemanticCache.clear_expired_facts c t
    exact ⟨hm ▸ h4, le_trans h5 hl⟩

theorem cacheRun_size_inv {α : Type} (ms : Nat) (ops : List (CacheOp α)) :
    ∀ c : SemanticCache α, c.max_size = ms ∧ c.entries.length ≤ max ms 1 →
      (c.run ops).max_size = ms ∧ (c.run ops).entries.length ≤ max ms 1 := by
  induction ops with
  | nil => intro c h; exact h
  | cons op ops ih =>
    intro c h
    exact ih (c.step op) (cacheStep_size_inv ms c op h)

/-- C3 counterexample: with capacity `max_size = 0`, a single `put` still
stores an entry (the eviction on a full cache is a no-op when the cache is
empty), so the size exceeds `max_size`, and a subsequent `get` of the same
query is a hit, not a miss. -/
theorem C3_counterexample :
    ((SemanticCache.init Nat 0 (Frac.ofNat 24) ⟨92, 100, by norm_num⟩
        (fun _ _ => Frac.ofNat 0)).put "q" [] 7 (Frac.ofNat 0)).entries.length = 1 ∧
    (((SemanticCache.init Nat 0 (Frac.ofNat 24) ⟨92, 100, by norm_num⟩
        (fun _ _ => Frac.ofNat 0)).put "q" [] 7 (Frac.ofNat 0)).get "q" []
        (Frac.ofNat 0)).1 = some 7 := by
  constructor
  · rfl
  · rfl

/-- C3 amended: after any sequence of `get`, `put`, `clear` and
`clear_expired` operations the number of stored entries is at most
`max max_size 1`; the bound `max_size` itself holds whenever `max_size ≥ 1`,
but a cache of capacity 0 can hold one entry (a `put` stores it after a
no-op eviction, and a `get` of it can hit). -/
theorem C3_cache_size_bound {α : Type} (ms : Nat) (tth th : Frac)
    (sim : List Frac → List Frac → Frac) (ops : List (CacheOp α)) :
    ((SemanticCache.init α ms tth th sim).run ops).entries.length ≤ max ms 1 :=
  (cacheRun_size_inv ms ops _ ⟨rfl, by simp [SemanticCache.init]⟩).2

/-! ## Claim C8: reranker ensemble scoring -/

theorem mem_enum_snd {α : Type} {l : List α} {p : Nat × α} (h : p ∈ l.enum) :
    p.2 ∈ l := by
  have := List.mem_map_of_mem Prod.snd h
  rwa [List.enum_map_snd] at this

/-- The ensemble formula asserted by the claim for a disabled cross-encoder:
`w_s · clamp(score) + w_b · clamp(bm25) + w_c · 0.5`. -/
def claimEnsembleScore (r : CrossEncoderReranker) (c : ScoredChunk) : Frac :=
  ((r.semantic_weight.mul
      (pyMin (pyMax (c.score.getD (Frac.ofNat 0)) (Frac.ofNat 0)) (Frac.ofNat 1))).add
    (r.bm25_weight.mul
      (pyMin (pyMax (c.bm25_score.getD (Frac.ofNat 0)) (Frac.ofNat 0)) (Frac.ofNat 1)))).add
    (r.cross_encoder_weight.mul fracHalf)

theorem Frac.val_ne_zero {x : Frac} (h : x.num ≠ 0) : x.val ≠ 0 := by
  simp only [Frac.val]
  have hd : (x.den : ℚ) ≠ 0 := by exact_mod_cast ne_of_gt x.dpos
  have hn : (x.num : ℚ) ≠ 0 := by exact_mod_cast h
  exact div_ne_zero hn hd

theorem pairwise_enumFrom_map {α β : Type} {R : α → α → Prop} {S : β → β → Prop}
    (g : Nat × α → β) (hg : ∀ p q : Nat × α, R p.2 q.2 → S (g p) (g q)) :
    ∀ (l : List α) (n : Nat), List.Pairwise R l →
      List.Pairwise S ((l.enumFrom n).map g) := by
  intro l
  induction l with
  | nil => intro n _; simp
  | cons x xs ih =>
    intro n hp
    rcases hp with _ | ⟨hx, hxs⟩
    simp only [List.enumFrom, List.map_cons]
    refine List.Pairwise.cons ?_ (ih (n + 1) hxs)
    intro b hb
    rcases List.mem_map.mp hb with ⟨q, hq, rfl⟩
    have hq2 : q.2 ∈ xs := by
      have := List.mem_map_of_mem Prod.snd hq
      rwa [List.enumFrom_map_snd] at this
    exact hg (n, x) q (hx q.2 hq2)

/-- C8 (with the amended `original_rank`): at construction the ensemble
weights are rescaled to sum to 1; with the cross-encoder disabled every
output chunk of `rerank_simple` is an input chunk with
`final_score = w_s·clamp(score) + w_b·clamp(bm25) + w_c·0.5`; the output is
sorted by descending `final_score` and truncated to `top_k`; and each output
chunk's `original_rank` field holds its position in the output (the post-sort
rank), counted from 1. -/
theorem C8_reranker_ensemble (sw bw cw : Frac) (oracle : String → String → Option Frac)
    (r : CrossEncoderReranker)
    (hinit : CrossEncoderReranker.init sw bw cw false oracle = .ok r)
    (query : String) (chunks : List ScoredChunk) (top_k : Nat) :
    (r.semantic_weight.val + r.bm25_weight.val + r.cross_encoder_weight.val = 1) ∧
    (∀ h ∈ r.rerank_simple query chunks top_k,
      ∃ c ∈ chunks, h = { c with final_score := some (claimEnsembleScore r c),
                                 original_rank := h.original_rank }) ∧
    List.Pairwise (fun a b =>
      Frac.ble (b.final_score.getD (Frac.ofNat 0))
        (a.final_score.getD (Frac.ofNat 0)) = true)
      (r.rerank_simple query chunks top_k) ∧
    ((r.rerank_simple query chunks top_k).length ≤ top_k) ∧
    (∀ (i : Nat) (h : ScoredChunk),
      (r.rerank_simple query chunks top_k)[i]? = some h →
      h.original_rank = some (i + 1)) := by
  -- unpack the construction
  unfold CrossEncoderReranker.init at hinit
  rw [show ((sw.add bw).add cw) = ((sw.add bw).add cw) from rfl] at hinit
  by_cases htot : ((sw.add bw).add cw).num = 0
  · rw [if_pos htot] at hinit
    exact absurd hinit (by simp)
  · rw [if_neg htot] at hinit
    rw [Except.ok.injEq] at hinit
    subst hinit
    constructor
    · show (sw.div ((sw.add bw).add cw)).val + (bw.div ((sw.add bw).add cw)).val +
        (cw.div ((sw.add bw).add cw)).val = 1
      rw [Frac.val_div _ _ htot, Frac.val_div _ _ htot, Frac.val_div _ _ htot]
      have hval : ((sw.add bw).add cw).val = sw.val + bw.val + cw.val := by
        rw [Frac.val_add, Frac.val_add]
      have hne : ((sw.add bw).add cw).val ≠ 0 := Frac.val_ne_zero htot
      rw [div_add_div_same, div_add_div_same, ← hval, div_self hne]
    · -- behaviour of rerank_simple
      set r : CrossEncoderReranker :=
        ⟨sw.div ((sw.add bw).add cw), bw.div ((sw.add bw).add cw),
         cw.div ((sw.add bw).add cw), false, oracle⟩ with hr
      by_cases hnil : chunks = []
      · subst hnil
        refine ⟨?_, ?_, ?_, ?_⟩ <;>
          simp [CrossEncoderReranker.rerank_simple, CrossEncoderReranker.rerank]
      · -- the non-empty case: name the stages
        have hrk : r.rerank query chunks top_k =
            (((pySort (fun a b => Frac.ble b.ensemble_score a.ensemble_score)
              (chunks.enum.map (fun p =>
                RerankResult.mk p.2 (claimEnsembleScore r p.2)
                  (pyMin (pyMax (p.2.score.getD (Frac.ofNat 0)) (Frac.ofNat 0)) (Frac.ofNat 1))
                  (pyMin (pyMax (p.2.bm25_score.getD (Frac.ofNat 0)) (Frac.ofNat 0)) (Frac.ofNat 1))
                  fracHalf (p.1 + 1)))).enum.map
              (fun p => { p.2 with rank := p.1 + 1 })).take top_k) := by
          unfold CrossEncoderReranker.rerank
          rw [if_neg hnil]
          rfl
        have htrans : ∀ a b c : RerankResult,
            (Frac.ble b.ensemble_score a.ensemble_score) = true →
            (Frac.ble c.ensemble_score b.ensemble_score) = true →
            (Frac.ble c.ensemble_score a.ensemble_score) = true :=
          fun a b c h1 h2 => Frac.ble_trans h2 h1
        have htotal : ∀ a b : RerankResult,
            (Frac.ble b.ensemble_score a.ensemble_score) = true ∨
            (Frac.ble a.ensemble_score b.ensemble_score) = true :=
          fun a b => (Frac.ble_total b.ensemble_score a.ensemble_score)
        refine ⟨?_, ?_, ?_, ?_⟩
        · -- membership and final_score formula
          intro h hmem
          unfold CrossEncoderReranker.rerank_simple at hmem
          rw [hrk] at hmem
          rcases List.mem_map.mp hmem with ⟨res, hres, rfl⟩
          have hres2 := List.mem_of_mem_take hres
          rcases List.mem_map.mp hres2 with ⟨p, hp, rfl⟩
          have hp2 := mem_enum_snd hp
          rw [pySort_mem] at hp2
          rcases List.mem_map.mp hp2 with ⟨q, hq, heq⟩
          refine ⟨q.2, mem_enum_snd hq, ?_⟩
          rw [← heq]
        · -- sortedness
          unfold CrossEncoderReranker.rerank_simple
          rw [hrk]
          refine List.Pairwise.map
            (R := fun a b : RerankResult =>
              Frac.ble b.ensemble_score a.ensemble_score = true) _ ?_ ?_
          · intro a b hab
            simpa using hab
          · refine List.Pairwise.sublist (List.take_sublist _ _) ?_
            have hsorted := pySort_pairwise
              (fun a b : RerankResult => Frac.ble b.ensemble_score a.ensemble_score)
              htrans htotal
              (chunks.enum.map (fun p =>
                RerankResult.mk p.2 (claimEnsembleScore r p.2)
                  (pyMin (pyMax (p.2.score.getD (Frac.ofNat 0)) (Frac.ofNat 0)) (Frac.ofNat 1))
                  (pyMin (pyMax (p.2.bm25_score.getD (Frac.ofNat 0)) (Frac.ofNat 0)) (Frac.ofNat 1))
                  fracHalf (p.1 + 1)))
            have := pairwise_enumFrom_map
              (fun p : Nat × RerankResult => { p.2 with rank := p.1 + 1 })
              (R := fun a b : RerankResult =>
                Frac.ble b.ensemble_score a.ensemble_score = true)
              (S := fun a b : RerankResult =>
                Frac.ble b.ensemble_score a.ensemble_score = true)
              (fun p q hpq => hpq) _ 0 hsorted
            simpa [List.enum] using this
        · -- length bound
          unfold CrossEncoderReranker.rerank_simple
          rw [hrk]
          simp [List.length_take]
        · -- post-sort ranks
          intro i h hget
          unfold CrossEncoderReranker.rerank_simple at hget
          rw [hrk] at hget
          rw [List.getElem?_map, List.getElem?_take] at hget
          by_cases hik : i < top_k
          · rw [if_pos hik, List.getElem?_map, List.getElem?_enum] at hget
            cases hx : (pySort (fun a b => Frac.ble b.ensemble_score a.ensemble_score)
              (chunks.enum.map (fun p =>
                RerankResult.mk p.2 (claimEnsembleScore r p.2)
                  (pyMin (pyMax (p.2.score.getD (Frac.ofNat 0)) (Frac.ofNat 0)) (Frac.ofNat 1))
                  (pyMin (pyMax (p.2.bm25_score.getD (Frac.ofNat 0)) (Frac.ofNat 0)) (Frac.ofNat 1))
                  fracHalf (p.1 + 1))))[i]? with
            | none => rw [hx] at hget; simp at hget
            | some res =>
              rw [hx] at hget
              simp at hget
              subst hget
              rfl
          · rw [if_neg hik] at hget
            simp at hget

def ornull : String → String → Option Frac := fun _ _ => none

def rerankerC : CrossEncoderReranker :=
  match CrossEncoderReranker.init ⟨55, 100, by norm_num⟩ ⟨35, 100, by norm_num⟩
      ⟨10, 100, by norm_num⟩ false ornull with
  | .ok r => r
  | .error _ => ⟨Frac.ofNat 0, Frac.ofNat 0, Frac.ofNat 0, false, ornull⟩

def scA : ScoredChunk :=
  ⟨"A", none, none, "child_documents", "child", none, "", [],
   some ⟨1, 10, by norm_num⟩, none, none, none, none, none, none, none, none⟩

def scB : ScoredChunk :=
  ⟨"B", none, none, "child_documents", "child", none, "", [],
   some ⟨9, 10, by norm_num⟩, none, none, none, none, none, none, none, none⟩

/-- C8 counterexample: chunk `B` sits at input position 1 (so the claim
demands `original_rank = 2`), yet after reranking it is returned first with
`original_rank = 1`: the code overwrites the rank with the post-sort
position. -/
theorem C8_counterexample :
    ([scA, scB][1]? = some scB) ∧ scB.chunk_id = "B" ∧
    (rerankerC.rerank_simple "q" [scA, scB] 5).map
        (fun h => (h.chunk_id, h.original_rank)) =
      [("B", some 1), ("A", some 2)] := by
  refine ⟨rfl, rfl, ?_⟩
  decide

/-- C8 witness: the ensemble theorem applied to the concretely constructed
reranker with the default weights. -/
theorem C8_witness :
    (CrossEncoderReranker.init ⟨55, 100, by norm_num⟩ ⟨35, 100, by norm_num⟩
        ⟨10, 100, by norm_num⟩ false ornull = .ok rerankerC) ∧
    (rerankerC.semantic_weight.val + rerankerC.bm25_weight.val +
      rerankerC.cross_encoder_weight.val = 1) :=
  ⟨rfl, (C8_reranker_ensemble ⟨55, 100, by norm_num⟩ ⟨35, 100, by norm_num⟩
      ⟨10, 100, by norm_num⟩ ornull rerankerC rfl "q" [scA, scB] 5).1⟩

/-! ## Claim C2: BM25 search result properties -/

/-- Python `result.get(key)` over the copied chunk fields of a search result
row. -/
def ScoredChunk.getField (h : ScoredChunk) (key : String) : Option String :=
  if key = "chunk_id" then some h.chunk_id
  else if key = "thu_tuc_id" then h.thu_tuc_id
  else if key = "chunk_type" then some h.chunk_type
  else if key = "chunk_tier" then some h.chunk_tier
  else if key = "parent_chunk_id" then h.parent_chunk_id
  else if key = "content" then some h.content
  else none

/-- Filter predicate asserted by the specification, on a result row: equality
against the copied chunk fields or the metadata map. -/
def scoredMatchesFiltersSpec (h : ScoredChunk) (fs : List (String × FilterVal)) : Bool :=
  fs.all (fun kv =>
    match kv.2 with
    | .str s => h.getField kv.1 == some s || pyGet h.metadata kv.1 == some s
    | .strs _ => false)

theorem getField_toScored (c : Chunk) (s : Frac) (key : String) :
    (c.toScored s).getField key = Chunk.get c key := rfl

theorem matches_toScored {c : Chunk} {fs : List (String × FilterVal)}
    (h : chunkMatchesFilters c fs = true) (s : Frac) :
    scoredMatchesFiltersSpec (c.toScored s) fs = true := by
  unfold chunkMatchesFilters at h
  unfold scoredMatchesFiltersSpec
  rw [List.all_eq_true] at h ⊢
  intro kv hkv
  have hh := h kv hkv
  cases hv : kv.2 with
  | str sv =>
    have hh2 : (Chunk.get c kv.1 == some sv) = true := by rw [hv] at hh; exact hh
    show ((c.toScored s).getField kv.1 == some sv ||
      pyGet (c.toScored s).metadata kv.1 == some sv) = true
    rw [getField_toScored, hh2]
    simp
  | strs l =>
    rw [hv] at hh
    exact absurd (hh : false = true) (by simp)

theorem filterPairs_sound {chunks : List Chunk} {fs : List (String × FilterVal)} :
    ∀ {l r : List (Nat × Frac)}, filterPairs chunks fs l = .ok r →
      ∀ p ∈ r, p ∈ l ∧
        ∃ c, chunks.get? p.1 = some c ∧ chunkMatchesFilters c fs = true := by
  intro l
  induction l with
  | nil =>
    intro r h p hp
    unfold filterPairs at h
    rw [show (Except.ok [] : Except String (List (Nat × Frac))) = .ok r ↔ [] = r from by simp] at h
    subst h
    simp at hp
  | cons q rest ih =>
    intro r h p hp
    unfold filterPairs at h
    cases hc : chunks.get? q.1 with
    | none => rw [hc] at h; exact absurd h (by simp [Except.map])
    | some c =>
      rw [hc] at h
      cases hrec : filterPairs chunks fs rest with
      | error e => rw [hrec] at h; exact absurd h (by simp [Except.map])
      | ok r2 =>
        rw [hrec] at h
        simp only [Except.map, Except.ok.injEq] at h
        by_cases hm : chunkMatchesFilters c fs = true
        · rw [if_pos hm] at h
          subst h
          rcases List.mem_cons.mp hp with rfl | hp2
          · exact ⟨List.mem_cons_self _ _, c, hc, hm⟩
          · have := ih hrec p hp2
            exact ⟨List.mem_cons_of_mem _ this.1, this.2⟩
        · rw [if_neg hm] at h
          subst h
          have := ih hrec p hp
          exact ⟨List.mem_cons_of_mem _ this.1, this.2⟩

theorem buildResults_rel {chunks : List Chunk} :
    ∀ {l : List (Nat × Frac)} {out : List ScoredChunk},
      buildResults chunks l = .ok out →
      List.Forall₂ (fun (p : Nat × Frac) (h : ScoredChunk) =>
        ∃ c, chunks.get? p.1 = some c ∧ h = c.toScored p.2) l out := by
  intro l
  induction l with
  | nil =>
    intro out h
    unfold buildResults at h
    rw [show (Except.ok [] : Except String (List ScoredChunk)) = .ok out ↔ [] = out from by simp] at h
    subst h
    exact List.Forall₂.nil
  | cons q rest ih =>
    intro out h
    unfold buildResults at h
    cases hc : chunks.get? q.1 with
    | none => rw [hc] at h; exact absurd h (by simp [Except.map])
    | some c =>
      rw [hc] at h
      cases hrec : buildResults chunks rest with
      | error e => rw [hrec] at h; exact absurd h (by simp [Except.map])
      | ok out2 =>
        rw [hrec] at h
        simp only [Except.map, Except.ok.injEq] at h
        subst h
        exact List.Forall₂.cons ⟨c, hc, rfl⟩ (ih hrec)

theorem forall2_mem_right {α β : Type} {R : α → β → Prop} :
    ∀ {l : List α} {out : List β}, List.Forall₂ R l out →
      ∀ b ∈ out, ∃ a ∈ l, R a b := by
  intro l out h
  induction h with
  | nil => intro b hb; simp at hb
  | cons hr _ ih =>
    intro b hb
    rcases List.mem_cons.mp hb with rfl | hb2
    · exact ⟨_, List.mem_cons_self _ _, hr⟩
    · rcases ih b hb2 with ⟨a, ha, har⟩
      exact ⟨a, List.mem_cons_of_mem _ ha, har⟩

theorem pairwise_of_forall2 {α β : Type} {R : α → β → Prop}
    {P : α → α → Prop} {Q : β → β → Prop}
    (hpq : ∀ a b a2 b2, R a b → R a2 b2 → P a a2 → Q b b2) :
    ∀ {l : List α} {out : List β}, List.Forall₂ R l out →
      List.Pairwise P l → List.Pairwise Q out := by
  intro l out h
  induction h with
  | nil => intro _; exact List.Pairwise.nil
  | cons hr hrest ih =>
    intro hp
    rcases hp with _ | ⟨hhead, htail⟩
    refine List.Pairwise.cons ?_ (ih htail)
    intro b2 hb2
    rcases forall2_mem_right hrest b2 hb2 with ⟨a2, ha2, har2⟩
    exact hpq _ _ _ _ hr har2 (hhead a2 ha2)

/-- Core of the C2 argument, shared by the filtered and unfiltered branch of
`search`: properties of `buildResults` over the sorted, truncated pair list. -/
theorem bm25_search_core {st : SimpleBM25} {top_k : Nat}
    {fs : List (String × FilterVal)} {pairs kept : List (Nat × Frac)}
    {out : List ScoredChunk}
    (hsub : ∀ p ∈ kept, p ∈ pairs)
    (hmatch : fs ≠ [] → ∀ p ∈ kept,
      ∃ c, st.chunks.get? p.1 = some c ∧ chunkMatchesFilters c fs = true)
    (hpos : ∀ p ∈ pairs, Frac.blt (Frac.ofNat 0) p.2 = true)
    (hbuild : buildResults st.chunks
      ((pySort (fun p q : Nat × Frac => Frac.ble q.2 p.2) kept).take top_k) = .ok out) :
    (∀ h ∈ out, scoredMatchesFiltersSpec h fs = true) ∧
    (∀ h ∈ out, h.bm25_score.isSome = true ∧
      Frac.blt (Frac.ofNat 0) (h.bm25_score.getD (Frac.ofNat 0)) = true) ∧
    List.Pairwise (fun a b => Frac.ble (b.bm25_score.getD (Frac.ofNat 0))
      (a.bm25_score.getD (Frac.ofNat 0)) = true) out ∧
    out.length ≤ top_k := by
  have hrel := buildResults_rel hbuild
  have hmemkept : ∀ p ∈ (pySort (fun p q : Nat × Frac => Frac.ble q.2 p.2) kept).take top_k,
      p ∈ kept := by
    intro p hp
    exact pySort_mem.mp (List.mem_of_mem_take hp)
  refine ⟨?_, ?_, ?_, ?_⟩
  · intro h hh
    rcases forall2_mem_right hrel h hh with ⟨p, hp, c, hc, rfl⟩
    by_cases hfs : fs = []
    · subst hfs; rfl
    · rcases hmatch hfs p (hmemkept p hp) with ⟨c2, hc2, hm2⟩
      rw [hc] at hc2
      injection hc2 with hcc
      subst hcc
      exact matches_toScored hm2 p.2
  · intro h hh
    rcases forall2_mem_right hrel h hh with ⟨p, hp, c, hc, rfl⟩
    exact ⟨rfl, hpos p (hsub p (hmemkept p hp))⟩
  · have hsorted : List.Pairwise
        (fun p q : Nat × Frac => Frac.ble q.2 p.2 = true)
        ((pySort (fun p q : Nat × Frac => Frac.ble q.2 p.2) kept).take top_k) := by
      refine List.Pairwise.sublist (List.take_sublist _ _) ?_
      exact pySort_pairwise (fun p q : Nat × Frac => Frac.ble q.2 p.2)
        (fun a b c h1 h2 => Frac.ble_trans h2 h1)
        (fun a b => Frac.ble_total b.2 a.2) kept
    refine pairwise_of_forall2 ?_ hrel hsorted
    rintro p h p2 h2 ⟨c, hc, rfl⟩ ⟨c2, hc2, rfl⟩ hp
    simpa [Chunk.toScored] using hp
  · rw [← List.Forall₂.length_eq hrel]
    simp [List.length_take]

theorem except_bind_ok {ε α β : Type} {x : Except ε α} {f : α → Except ε β} {b : β} :
    (x >>= f) = .ok b ↔ ∃ a, x = .ok a ∧ f a = .ok b := by
  cases x with
  | error e =>
    constructor
    · intro h
      exact absurd (h : Except.error e = Except.ok b)
        (fun hc => Except.noConfusion hc)
    · rintro ⟨a, ha, _⟩
      exact absurd ha (fun hc => Except.noConfusion hc)
  | ok a =>
    constructor
    · intro h
      exact ⟨a, rfl, (h : f a = Except.ok b)⟩
    · rintro ⟨a2, ha2, hf⟩
      rw [Except.ok.injEq] at ha2
      subst ha2
      exact (hf : f a = Except.ok b)

/-- C2: for every built BM25 index, every query, `top_k` and filter map:
every returned result row satisfies every filter predicate in the
specification's sense (equality against the copied chunk fields or the
metadata map), carries a strictly positive `bm25_score`, the result list is
sorted by descending `bm25_score`, and at most `top_k` rows are returned. -/
theorem C2_bm25_search_properties (lg : Frac → Frac) (chs : List Chunk)
    (k1 b : Frac) (st : SimpleBM25)
    (hbuilt : SimpleBM25.build_index lg (SimpleBM25.init chs k1 b) = .ok st)
    (q : String) (top_k : Nat) (fs : List (String × FilterVal))
    (out : List ScoredChunk) (hs : st.search q top_k fs = .ok out) :
    (∀ h ∈ out, scoredMatchesFiltersSpec h fs = true) ∧
    (∀ h ∈ out, h.bm25_score.isSome = true ∧
      Frac.blt (Frac.ofNat 0) (h.bm25_score.getD (Frac.ofNat 0)) = true) ∧
    List.Pairwise (fun a b2 => Frac.ble (b2.bm25_score.getD (Frac.ofNat 0))
      (a.bm25_score.getD (Frac.ofNat 0)) = true) out ∧
    out.length ≤ top_k := by
  unfold SimpleBM25.search at hs
  by_cases hb2 : st.is_built = false
  · rw [if_pos hb2] at hs
    exact absurd hs (by simp)
  · rw [if_neg hb2] at hs
    dsimp only at hs
    by_cases hqt : tokenize q true = []
    · rw [if_pos hqt] at hs
      rw [Except.ok.injEq] at hs
      subst hs
      exact ⟨by simp, by simp, by simp, by simp⟩
    · rw [if_neg hqt] at hs
      rcases except_bind_ok.mp hs with ⟨scores, hsc, hs2⟩
      have hpos : ∀ p ∈ scores.enum.filter
          (fun p => Frac.blt (Frac.ofNat 0) p.2), Frac.blt (Frac.ofNat 0) p.2 = true :=
        fun p hp => (List.mem_filter.mp hp).2
      by_cases hfs : fs = []
      · rw [if_pos hfs] at hs2
        rcases except_bind_ok.mp hs2 with ⟨kept, hk, hs3⟩
        have hk2 : scores.enum.filter (fun p => Frac.blt (Frac.ofNat 0) p.2) = kept := by
          rw [← Except.ok.injEq (ε := String)]
          exact hk
        subst hk2
        exact bm25_search_core (fun p hp => hp) (fun hne => absurd hfs hne)
          hpos hs3
      · rw [if_neg hfs] at hs2
        rcases except_bind_ok.mp hs2 with ⟨kept, hk, hs3⟩
        have hsound := filterPairs_sound hk
        exact bm25_search_core (fun p hp => (hsound p hp).1)
          (fun _ p hp => (hsound p hp).2) hpos hs3

def c2chunks : List Chunk :=
  [⟨"c1", "1.000001", "child_documents", "child", some "p1", "hello world banana", []⟩,
   ⟨"c2", "1.000002", "parent_overview", "parent", none, "banana split", []⟩]

def c2st : SimpleBM25 :=
  match SimpleBM25.build_index (fun x => x) (SimpleBM25.init c2chunks fr32 fr34) with
  | .ok st => st
  | .error _ => SimpleBM25.init [] fr32 fr34

def c2out : List ScoredChunk :=
  match c2st.search "banana" 5 [("chunk_tier", .str "child")] with
  | .ok o => o
  | .error _ => []

/-- C2 witness: the search-properties theorem applied to a concrete built
index, a query and a filter, with a non-empty result. -/
theorem C2_witness :
    (SimpleBM25.build_index (fun x => x) (SimpleBM25.init c2chunks fr32 fr34) =
      .ok c2st) ∧
    (c2st.search "banana" 5 [("chunk_tier", FilterVal.str "child")] = .ok c2out) ∧
    c2out ≠ [] ∧
    ((∀ h ∈ c2out,
        scoredMatchesFiltersSpec h [("chunk_tier", FilterVal.str "child")] = true) ∧
     (∀ h ∈ c2out, h.bm25_score.isSome = true ∧
        Frac.blt (Frac.ofNat 0) (h.bm25_score.getD (Frac.ofNat 0)) = true) ∧
     List.Pairwise (fun a b2 => Frac.ble (b2.bm25_score.getD (Frac.ofNat 0))
        (a.bm25_score.getD (Frac.ofNat 0)) = true) c2out ∧
     c2out.length ≤ 5) :=
  ⟨rfl, rfl, by decide,
   C2_bm25_search_properties (fun x => x) c2chunks fr32 fr34 c2st rfl "banana" 5
     [("chunk_tier", FilterVal.str "child")] c2out rfl⟩

/-! ## Claims C1 and C5: pipeline routing -/

theorem boolStrLex_trans (pa pb pc : Bool) (sa sb sc : String)
    (h1 : (if pa = pb then strLe sa sb else !pa && pb) = true)
    (h2 : (if pb = pc then strLe sb sc else !pb && pc) = true) :
    (if pa = pc then strLe sa sc else !pa && pc) = true := by
  cases pa <;> cases pb <;> cases pc <;> simp_all
  · exact strLe_trans h1 h2
  · exact strLe_trans h1 h2

theorem boolStrLex_total (pa pb : Bool) (sa sb : String) :
    (if pa = pb then strLe sa sb else !pa && pb) = true ∨
    (if pb = pa then strLe sb sa else !pb && pa) = true := by
  cases pa <;> cases pb <;> simp_all
  · exact strLe_total sa sb
  · exact strLe_total sa sb

theorem codeSortLe_trans {a b c : FormattedHit}
    (h1 : QdrantVectorStore.codeSortLe a b = true)
    (h2 : QdrantVectorStore.codeSortLe b c = true) :
    QdrantVectorStore.codeSortLe a c = true :=
  boolStrLex_trans _ _ _ _ _ _ h1 h2

theorem codeSortLe_total (a b : FormattedHit) :
    QdrantVectorStore.codeSortLe a b = true ∨
    QdrantVectorStore.codeSortLe b a = true :=
  boolStrLex_total _ _ _ _

theorem mem_scroll {collection : List Chunk} {pred : Chunk → Bool} {lim : Nat}
    {c : Chunk} (h : c ∈ QdrantVectorStore.scroll collection pred lim) :
    c ∈ collection ∧ pred c = true := by
  unfold QdrantVectorStore.scroll at h
  have h2 := List.mem_of_mem_take h
  exact ⟨List.mem_of_mem_filter h2, List.of_mem_filter h2⟩

theorem mem_ite_filter {γ : Type} {x : γ} {b : Bool} {p : γ → Bool} {l : List γ}
    (h : x ∈ (if b = true then l.filter p else l)) : x ∈ l := by
  cases b
  · simpa using h
  · exact List.mem_of_mem_filter (by simpa using h)

theorem mem_ite_nil {γ : Type} {x : γ} {b : Bool} {l : List γ}
    (h : x ∈ (if b = true then l else [])) : x ∈ l := by
  cases b
  · simp at h
  · simpa using h

theorem search_by_code_mem {collection : List Chunk} {code : String}
    {ip ic : Bool} {ctf : Option FilterVal} {r : FormattedHit}
    (hr : r ∈ QdrantVectorStore.search_by_code collection code ip ic ctf) :
    r.ma_thu_tuc = code ∧ r.score = Frac.ofNat 1 := by
  unfold QdrantVectorStore.search_by_code at hr
  rw [pySort_mem] at hr
  have h1 := mem_ite_filter (mem_ite_filter hr)
  rcases List.mem_map.mp h1 with ⟨c, hc, rfl⟩
  have hbeq : (c.thu_tuc_id == code) = true := by
    cases ht : optFilterValTruthy ctf with
    | false =>
      rw [ht] at hc
      simp only [Bool.not_false, if_true] at hc
      exact (mem_scroll hc).2
    | true =>
      rw [ht] at hc
      simp only [Bool.not_true, Bool.true_and] at hc
      rw [if_neg (by simp)] at hc
      rcases List.mem_append.mp hc with h2 | h2
      · have h3 := mem_ite_nil h2
        have := (mem_scroll h3).2
        exact Bool.and_elim_left this
      · have h3 := mem_ite_nil h2
        have := (mem_scroll h3).2
        exact Bool.and_elim_left (Bool.and_elim_left this)
  exact ⟨eq_of_beq hbeq, rfl⟩

theorem search_by_code_pairwise (collection : List Chunk) (code : String)
    (ip ic : Bool) (ctf : Option FilterVal) :
    List.Pairwise (fun a b => QdrantVectorStore.codeSortLe a b = true)
      (QdrantVectorStore.search_by_code collection code ip ic ctf) :=
  pySort_pairwise QdrantVectorStore.codeSortLe
    (fun _ _ _ h1 h2 => codeSortLe_trans h1 h2)
    codeSortLe_total _

/-- Shared: what a true `codeSortLe` comparison says about the tiers and the
chunk ids of two rows. -/
theorem codeSortLe_imp {a b : FormattedHit}
    (h : QdrantVectorStore.codeSortLe a b = true) :
    (b.chunk_tier = "parent" → a.chunk_tier = "parent") ∧
    ((a.chunk_tier = "parent" ↔ b.chunk_tier = "parent") →
      strLe a.chunk_id b.chunk_id = true) := by
  unfold QdrantVectorStore.codeSortLe at h
  by_cases hA : a.chunk_tier = "parent" <;> by_cases hB : b.chunk_tier = "parent"
  · simp [hA, hB] at h
    exact ⟨fun _ => hA, fun _ => h⟩
  · exact ⟨fun hB2 => absurd hB2 hB, fun hiff => absurd (hiff.mp hA) hB⟩
  · simp [hA, hB] at h
  · simp [hA, hB] at h
    exact ⟨fun hB2 => absurd hB2 hB, fun _ => h⟩

/-- Shared: when the enhancer produced a non-empty exact code whose lookup is
non-empty, the exact-match route returns the exact-match result: confidence 1,
search type tag, and the code lookup's rows as the retrieved chunks. -/
theorem exact_match_route_props {env : PipelineEnv} {pl : Pipeline}
    {question : String} {qi : QueryInfo} {cc : ContextConfig}
    {qe : Option (List Frac)} {code : String}
    (hcode : qi.exact_code = some code) (hne : ¬ code = "")
    (hnonempty : (QdrantVectorStore.search_by_code env.collection code true true
      (pyGet qi.filters "chunk_type")).isEmpty = false) :
    ∃ res pl2, HierarchicalRetrievalPipeline.exact_match_route env pl question qi
        cc qe = some (res, pl2) ∧
      res.confidence = Frac.ofNat 1 ∧
      pyGet res.metadata "search_type" = some (MetaVal.str "exact_code_match") ∧
      res.retrieved_chunks = (QdrantVectorStore.search_by_code env.collection code
        true true (pyGet qi.filters "chunk_type")).map FormattedHit.toScored := by
  unfold HierarchicalRetrievalPipeline.exact_match_route
  simp only [hcode]
  rw [if_neg hne]
  rw [if_neg (by rw [hnonempty]; exact fun hc => Bool.noConfusion hc)]
  cases hc : pl.cache with
  | some cache =>
    refine ⟨_, _, rfl, rfl, ?_, rfl⟩
    simp [pyGet]
  | none =>
    refine ⟨_, _, rfl, rfl, ?_, rfl⟩
    simp [pyGet]

/-- Shared: `retrieve_main` under a detected non-empty exact code with a
non-empty lookup takes the exact-match route. -/
theorem retrieve_main_exact {env : PipelineEnv} {pl : Pipeline}
    {question : String} {tp tc tf : Nat} {qe : Option (List Frac)} {code : String}
    (hcode : (env.enhance_query question).exact_code = some code)
    (hne : ¬ code = "")
    (hnonempty : (QdrantVectorStore.search_by_code env.collection code true true
      (pyGet (env.enhance_query question).filters "chunk_type")).isEmpty = false) :
    ∃ res pl2, HierarchicalRetrievalPipeline.retrieve_main env pl question tp tc tf
        qe = .ok (res, pl2) ∧
      res.confidence = Frac.ofNat 1 ∧
      pyGet res.metadata "search_type" = some (MetaVal.str "exact_code_match") ∧
      res.retrieved_chunks = (QdrantVectorStore.search_by_code env.collection code
        true true (pyGet (env.enhance_query question).filters "chunk_type")).map
        FormattedHit.toScored := by
  obtain ⟨res, pl2, hr, h1, h2, h3⟩ :=
    @exact_match_route_props env pl question (env.enhance_query question)
      (get_context_config (env.enhance_query question).intent) qe code
      hcode hne hnonempty
  refine ⟨res, pl2, ?_, h1, h2, h3⟩
  unfold HierarchicalRetrievalPipeline.retrieve_main
  simp only [hr]

/-- Shared: every row of a mapped exact-code lookup carries the procedure
code, and the rows are ordered parents-first then by ascending chunk id. -/
theorem mapped_exact_results_props (coll : List Chunk) (code : String)
    (ctf : Option FilterVal) :
    (∀ c ∈ (QdrantVectorStore.search_by_code coll code true true ctf).map
        FormattedHit.toScored, c.ma_thu_tuc = some code) ∧
    ((QdrantVectorStore.search_by_code coll code true true ctf).map
        FormattedHit.toScored).Pairwise (fun a b =>
      (b.chunk_tier = "parent" → a.chunk_tier = "parent") ∧
      ((a.chunk_tier = "parent" ↔ b.chunk_tier = "parent") →
        strLe a.chunk_id b.chunk_id = true)) := by
  constructor
  · intro c hc
    rcases List.mem_map.mp hc with ⟨fh, hfh, rfl⟩
    exact congrArg some (search_by_code_mem hfh).1
  · rw [List.pairwise_map]
    exact List.Pairwise.imp (fun hab => codeSortLe_imp hab)
      (search_by_code_pairwise coll code true true ctf)

/-- C1: on a cache miss, for every question in which the query enhancer
detects a non-empty exact procedure code whose stage-2 lookup is non-empty,
`retrieve` returns a result with confidence `1.0`, metadata
`search_type = "exact_code_match"`, every returned chunk belonging to that
procedure code, and the returned chunks ordered with all parent-tier chunks
first and, within the parent / non-parent classes (hence within each tier),
ascending chunk id. -/
theorem C1_exact_code_routing (env : PipelineEnv) (pl : Pipeline)
    (question : String) (tp tc tf : Nat) (code : String)
    (hcache : match pl.cache with
      | some cache => (cache.get question (env.embed question) env.now).1 = none
      | none => True)
    (hcode : (env.enhance_query question).exact_code = some code)
    (hne : ¬ code = "")
    (hnonempty : (QdrantVectorStore.search_by_code env.collection code true true
      (pyGet (env.enhance_query question).filters "chunk_type")).isEmpty = false) :
    ∃ res pl2, HierarchicalRetrievalPipeline.retrieve env pl question tp tc tf
        = .ok (res, pl2) ∧
      res.confidence = Frac.ofNat 1 ∧
      pyGet res.metadata "search_type" = some (MetaVal.str "exact_code_match") ∧
      (∀ c ∈ res.retrieved_chunks, c.ma_thu_tuc = some code) ∧
      res.retrieved_chunks.Pairwise (fun a b =>
        (b.chunk_tier = "parent" → a.chunk_tier = "parent") ∧
        ((a.chunk_tier = "parent" ↔ b.chunk_tier = "parent") →
          strLe a.chunk_id b.chunk_id = true)) := by
  unfold HierarchicalRetrievalPipeline.retrieve
  cases hplc : pl.cache with
  | none =>
    simp only [hplc]
    obtain ⟨res, pl2, hm, h1, h2, h3⟩ :=
      @retrieve_main_exact env pl question tp tc tf none code hcode hne hnonempty
    refine ⟨res, pl2, hm, h1, h2, ?_, ?_⟩
    · rw [h3]
      exact (mapped_exact_results_props env.collection code _).1
    · rw [h3]
      exact (mapped_exact_results_props env.collection code _).2
  | some cache =>
    rw [hplc] at hcache
    simp only [hplc, hcache]
    obtain ⟨res, pl2, hm, h1, h2, h3⟩ :=
      @retrieve_main_exact env
        { pl with cache := some (cache.get question (env.embed question) env.now).2 }
        question tp tc tf (some (env.embed question)) code hcode hne hnonempty
    refine ⟨res, pl2, hm, h1, h2, ?_, ?_⟩
    · rw [h3]
      exact (mapped_exact_results_props env.collection code _).1
    · rw [h3]
      exact (mapped_exact_results_props env.collection code _).2

def c1qi : QueryInfo := ⟨"q", "fees", ["q"], [], [], some "1.000001"⟩

def c1parent : Chunk :=
  ⟨"1.000001_parent", "1.000001", "overview", "parent", none, "pc", []⟩

def c1child : Chunk :=
  ⟨"1.000001_c1", "1.000001", "fees", "child", some "1.000001_parent", "cc", []⟩

def envC1 : PipelineEnv :=
  ⟨fun _ => [], fun _ => c1qi, [c1parent, c1child], fun _ _ _ => [], Frac.ofNat 0⟩

def plEmpty : Pipeline := ⟨none, none, none⟩

/-- C1 witness: a concrete exact-code question over a two-chunk collection. -/
theorem C1_witness :
    ∃ res pl2, HierarchicalRetrievalPipeline.retrieve envC1 plEmpty "q" 5 100 5
        = .ok (res, pl2) ∧
      res.confidence = Frac.ofNat 1 ∧
      pyGet res.metadata "search_type" = some (MetaVal.str "exact_code_match") ∧
      (∀ c ∈ res.retrieved_chunks, c.ma_thu_tuc = some "1.000001") ∧
      res.retrieved_chunks.Pairwise (fun a b =>
        (b.chunk_tier = "parent" → a.chunk_tier = "parent") ∧
        ((a.chunk_tier = "parent" ↔ b.chunk_tier = "parent") →
          strLe a.chunk_id b.chunk_id = true)) :=
  C1_exact_code_routing envC1 plEmpty "q" 5 100 5 "1.000001" trivial rfl
    (by decide) (by decide)

/-- Shared: whether the exact-match route falls through does not depend on
the pipeline state, the context configuration or the precomputed embedding. -/
theorem exact_match_route_none {env : PipelineEnv} {pl pl' : Pipeline}
    {question : String} {qi : QueryInfo} {cc cc' : ContextConfig}
    {qe qe' : Option (List Frac)}
    (h : HierarchicalRetrievalPipeline.exact_match_route env pl question qi cc qe
      = none) :
    HierarchicalRetrievalPipeline.exact_match_route env pl' question qi cc' qe'
      = none := by
  unfold HierarchicalRetrievalPipeline.exact_match_route at h ⊢
  cases hec : qi.exact_code with
  | none => simp only [hec]
  | some code =>
    simp only [hec] at h ⊢
    by_cases hcz : code = ""
    · rw [if_pos hcz]
    · rw [if_neg hcz] at h ⊢
      by_cases hemp : (QdrantVectorStore.search_by_code env.collection code true
          true (pyGet qi.filters "chunk_type")).isEmpty = true
      · rw [if_pos hemp]
      · rw [if_neg hemp] at h
        exfalso
        cases hplc : pl.cache <;> simp [hplc] at h

/-- Shared: score fusion returns at most `top_k` chunks. -/
theorem rerank_fusion_length_le (reranker : Option CrossEncoderReranker)
    (q : String) (docs : List ScoredChunk) (k : Nat) :
    (HierarchicalRetrievalPipeline.rerank_with_score_fusion reranker q docs
      k).length ≤ k := by
  unfold HierarchicalRetrievalPipeline.rerank_with_score_fusion
  split
  · simp
  · cases reranker with
    | none =>
      simp only [List.length_take, pySort_length]
      omega
    | some r =>
      show (CrossEncoderReranker.rerank_simple r q docs k).length ≤ k
      unfold CrossEncoderReranker.rerank_simple CrossEncoderReranker.rerank
      by_cases hd : docs = []
      · simp [hd]
      · rw [if_neg hd]
        simp only [List.length_map, List.length_take]
        omega

/-- Shared: every intent configuration allows at least one descendant. -/
theorem one_le_max_descendants (intent : String) :
    1 ≤ (get_context_config intent).max_descendants := by
  have hall : ∀ c ∈ INTENT_CONTEXT_MAPPING.map Prod.snd,
      1 ≤ c.max_descendants := by decide
  exact hall _ (get_context_config_mem intent)

/-- Shared: the hybrid route's result carries at most `top_k_final` chunks. -/
theorem hybrid_route_chunks {env : PipelineEnv} {pl : Pipeline}
    {question : String} {qi : QueryInfo} {cc : ContextConfig}
    {tp tc tf : Nat} {qe : Option (List Frac)} {res : RetrievalResult}
    {pl2 : Pipeline}
    (h : HierarchicalRetrievalPipeline.hybrid_route env pl question qi cc tp tc
      tf qe = .ok (res, pl2)) :
    res.retrieved_chunks.length ≤ tf := by
  simp only [HierarchicalRetrievalPipeline.hybrid_route] at h
  rw [except_bind_ok] at h
  obtain ⟨bm25_results, _, hfin⟩ := h
  have h2 : Except.ok (ε := String)
      (HierarchicalRetrievalPipeline.hybrid_finish env pl question qi cc
        (HierarchicalRetrievalPipeline.hierarchical_retrieve env qi tp tc).1
        (HierarchicalRetrievalPipeline.hierarchical_retrieve env qi tp tc).2
        bm25_results tf qe) = Except.ok (res, pl2) := hfin
  rw [Except.ok.injEq] at h2
  unfold HierarchicalRetrievalPipeline.hybrid_finish at h2
  cases hplc : pl.cache with
  | some cache =>
    simp only [hplc] at h2
    rw [Prod.mk.injEq] at h2
    rw [← h2.1]
    exact rerank_fusion_length_le _ _ _ _
  | none =>
    simp only [hplc] at h2
    rw [Prod.mk.injEq] at h2
    rw [← h2.1]
    exact rerank_fusion_length_le _ _ _ _

/-- Shared: when the exact-match route falls through, `retrieve_main` returns
at most the intent configuration's `chunks` chunks. -/
theorem retrieve_main_bound {env : PipelineEnv} {pl : Pipeline}
    {question : String} {tp tc tf : Nat} {qe : Option (List Frac)}
    {res : RetrievalResult} {pl2 : Pipeline}
    (hfall : HierarchicalRetrievalPipeline.exact_match_route env pl question
      (env.enhance_query question)
      (get_context_config (env.enhance_query question).intent) qe = none)
    (hok : HierarchicalRetrievalPipeline.retrieve_main env pl question tp tc tf
      qe = .ok (res, pl2)) :
    res.retrieved_chunks.length ≤
      (get_context_config (env.enhance_query question).intent).chunks := by
  unfold HierarchicalRetrievalPipeline.retrieve_main at hok
  simp only [hfall] at hok
  exact hybrid_route_chunks hok

/-- C5 (amended): on a cache miss, whenever the exact-match route falls
through, the returned `retrieved_chunks` list of `retrieve` has length at
most `chunks` of the intent's context configuration, hence at most
`chunks * max_descendants + max_siblings`; the exact-code route of the
original claim does not obey this bound. -/
theorem C5_retrieved_chunks_bound (env : PipelineEnv) (pl : Pipeline)
    (question : String) (tp tc tf : Nat)
    (hcache : match pl.cache with
      | some cache => (cache.get question (env.embed question) env.now).1 = none
      | none => True)
    (hfall : HierarchicalRetrievalPipeline.exact_match_route env pl question
      (env.enhance_query question)
      (get_context_config (env.enhance_query question).intent) none = none)
    {res : RetrievalResult} {pl2 : Pipeline}
    (hok : HierarchicalRetrievalPipeline.retrieve env pl question tp tc tf
      = .ok (res, pl2)) :
    res.retrieved_chunks.length ≤
      (get_context_config (env.enhance_query question).intent).chunks *
        (get_context_config (env.enhance_query question).intent).max_descendants +
      (get_context_config (env.enhance_query question).intent).max_siblings := by
  have hlen : res.retrieved_chunks.length ≤
      (get_context_config (env.enhance_query question).intent).chunks := by
    unfold HierarchicalRetrievalPipeline.retrieve at hok
    cases hplc : pl.cache with
    | none =>
      simp only [hplc] at hok
      exact retrieve_main_bound (exact_match_route_none hfall) hok
    | some cache =>
      rw [hplc] at hcache
      simp only [hplc, hcache] at hok
      exact retrieve_main_bound (exact_match_route_none hfall) hok
  calc res.retrieved_chunks.length
      ≤ (get_context_config (env.enhance_query question).intent).chunks := hlen
    _ = (get_context_config (env.enhance_query question).intent).chunks * 1 :=
      (Nat.mul_one _).symm
    _ ≤ (get_context_config (env.enhance_query question).intent).chunks *
        (get_context_config (env.enhance_query question).intent).max_descendants :=
      Nat.mul_le_mul_left _ (one_le_max_descendants _)
    _ ≤ _ := Nat.le_add_right _ _

def c5qi : QueryInfo := ⟨"q", "fees", ["q"], [], [], some "1.000002"⟩

def c5chunks : List Chunk :=
  ⟨"1.000002_parent", "1.000002", "overview", "parent", none, "p", []⟩ ::
  (List.range 8).map (fun i =>
    ⟨"1.000002_c" ++ Nat.repr i, "1.000002", "fees", "child",
     some "1.000002_parent", "c", []⟩)

def envC5 : PipelineEnv :=
  ⟨fun _ => [], fun _ => c5qi, c5chunks, fun _ _ _ => [], Frac.ofNat 0⟩

/-- C5 counterexample: a `fees` question (bound `2 * 3 + 1 = 7`) whose exact
code matches a procedure with one parent and eight child chunks: `retrieve`
returns all nine chunks. -/
theorem C5_counterexample :
    (match HierarchicalRetrievalPipeline.retrieve envC5 plEmpty "q" 5 100 5 with
     | .ok p => some p.1.retrieved_chunks.length
     | .error _ => none) = some 9 ∧
    (get_context_config (envC5.enhance_query "q").intent).chunks *
        (get_context_config (envC5.enhance_query "q").intent).max_descendants +
      (get_context_config (envC5.enhance_query "q").intent).max_siblings = 7 := by
  constructor
  · rfl
  · rfl

def c5wqi : QueryInfo := ⟨"qW", "fees", ["qW"], [], [], none⟩

def envC5w : PipelineEnv :=
  ⟨fun _ => [], fun _ => c5wqi, [], fun _ _ _ => [], Frac.ofNat 0⟩

def c5wOut : Except String (RetrievalResult × Pipeline) :=
  HierarchicalRetrievalPipeline.retrieve envC5w plEmpty "qW" 5 100 5

def c5wres : RetrievalResult :=
  match c5wOut with
  | .ok p => p.1
  | .error _ => ⟨"", "", [], "", Frac.ofNat 0, []⟩

def c5wpl : Pipeline :=
  match c5wOut with
  | .ok p => p.2
  | .error _ => plEmpty

/-- C5 witness: a hybrid-path call on an empty collection obeys the bound. -/
theorem C5_witness :
    c5wres.retrieved_chunks.length ≤
      (get_context_config (envC5w.enhance_query "qW").intent).chunks *
        (get_context_config (envC5w.enhance_query "qW").intent).max_descendants +
      (get_context_config (envC5w.enhance_query "qW").intent).max_siblings :=
  C5_retrieved_chunks_bound envC5w plEmpty "qW" 5 100 5 trivial (by rfl)
    (by rfl)
